import Mathlib

/-!
Verification of the data-partitioning, preprocessing and training-artifact
subsystem of the ml-api repository.  The Python sources are shallowly
embedded: Polars dataframes become explicit column/row structures, Python
float arithmetic on split ratios is modelled exactly by rational numbers,
Python `int()` truncation by integer t-division, and fallible operations
return `Except`.  All embedded operations are computable so that concrete
scenarios evaluate inside the kernel.
-/

namespace MLApi

/-- Runtime value held in one dataframe cell: a null, a numeric value
(Python int/float, modelled exactly as a rational) or a string. -/
inductive Val where
  | null : Val
  | num : ℚ → Val
  | str : String → Val
deriving DecidableEq

/-! ### Kernel-computable rational arithmetic

Batteries marks `Rat.add`, `Rat.mul`, `Rat.sub`, `Rat.inv` as
irreducible, so embedded code uses the following `mkRat`-based versions,
each proved equal to the mathematical operation. -/

/-- Rational number of a natural (embedding of Python int-to-float widening). -/
def qofNat (n : Nat) : ℚ := mkRat n 1

/-- Rational number of an integer. -/
def qofInt (i : Int) : ℚ := mkRat i 1

/-- Computable negation on rationals. -/
def qneg (a : ℚ) : ℚ := mkRat (-a.num) a.den

/-- Computable addition on rationals. -/
def qadd (a b : ℚ) : ℚ := mkRat (a.num * b.den + b.num * a.den) (a.den * b.den)

/-- Computable subtraction on rationals. -/
def qsub (a b : ℚ) : ℚ := qadd a (qneg b)

/-- Computable multiplication on rationals. -/
def qmul (a b : ℚ) : ℚ := mkRat (a.num * b.num) (a.den * b.den)

/-- Computable absolute value on rationals. -/
def qabs (a : ℚ) : ℚ := if a.num < 0 then qneg a else a

/-- Computable division of a rational by a natural. -/
def qdivNat (a : ℚ) (n : Nat) : ℚ := mkRat a.num (a.den * n)

/-- Computable sum of a list of rationals (left fold, as Python's running sum). -/
def qsum (l : List ℚ) : ℚ := l.foldl qadd 0

theorem qofNat_eq (n : Nat) : qofNat n = (n : ℚ) := by
  unfold qofNat; rw [Rat.mkRat_eq_div]; simp

theorem qofInt_eq (i : Int) : qofInt i = (i : ℚ) := by
  unfold qofInt; rw [Rat.mkRat_eq_div]; simp

theorem qneg_eq (a : ℚ) : qneg a = -a := by
  unfold qneg; rw [Rat.mkRat_eq_div]
  push_cast
  rw [neg_div, Rat.num_div_den]

theorem qadd_eq (a b : ℚ) : qadd a b = a + b := by
  unfold qadd; rw [Rat.mkRat_eq_div]
  have ha : ((a.den : ℚ)) ≠ 0 := Nat.cast_ne_zero.mpr a.den_nz
  have hb : ((b.den : ℚ)) ≠ 0 := Nat.cast_ne_zero.mpr b.den_nz
  push_cast
  conv_rhs => rw [← Rat.num_div_den a, ← Rat.num_div_den b, div_add_div _ _ ha hb]
  ring_nf

theorem qsub_eq (a b : ℚ) : qsub a b = a - b := by
  unfold qsub; rw [qadd_eq, qneg_eq, sub_eq_add_neg]

theorem qmul_eq (a b : ℚ) : qmul a b = a * b := by
  unfold qmul; rw [Rat.mkRat_eq_div]
  push_cast
  conv_rhs => rw [← Rat.num_div_den a, ← Rat.num_div_den b, div_mul_div_comm]

theorem qabs_eq (a : ℚ) : qabs a = |a| := by
  unfold qabs
  split
  · have hlt : a < 0 := by
      by_contra hc
      exact absurd (Rat.num_nonneg.mpr (le_of_not_lt hc)) (by omega)
    rw [qneg_eq, abs_of_neg hlt]
  · have hge : 0 ≤ a := Rat.num_nonneg.mp (by omega)
    rw [abs_of_nonneg hge]

theorem qdivNat_eq (a : ℚ) (n : Nat) : qdivNat a n = a / n := by
  unfold qdivNat; rw [Rat.mkRat_eq_div]
  rcases Nat.eq_zero_or_pos n with h | h
  · subst h; simp
  · push_cast
    conv_rhs => rw [← Rat.num_div_den a, div_div]

theorem qsum_eq (l : List ℚ) : qsum l = l.sum := by
  suffices h : ∀ (a : ℚ), l.foldl qadd a = a + l.sum by
    have := h 0; unfold qsum; rw [this, zero_add]
  induction l with
  | nil => intro a; simp
  | cons x xs ih =>
    intro a
    simp only [List.foldl_cons, List.sum_cons, ih, qadd_eq]
    ring

/-! ### Python numeric and slicing primitives -/

/-- Python `int(q)`: truncation toward zero of an exact rational. -/
def pyTrunc (q : ℚ) : Int := q.num.tdiv q.den

/-- Resolve a (possibly negative) Python slice endpoint against length `n`. -/
def pyIdx (n : Nat) (i : Int) : Nat := if i < 0 then (n + i).toNat else min n i.toNat

/-- Python `l[:b]`. -/
def pySliceTo (l : List α) (b : Int) : List α := l.take (pyIdx l.length b)

/-- Python `l[a:]`. -/
def pySliceFrom (l : List α) (a : Int) : List α := l.drop (pyIdx l.length a)

/-- Python `l[a:b]`. -/
def pySliceBetween (l : List α) (a b : Int) : List α :=
  (l.take (pyIdx l.length b)).drop (pyIdx l.length a)

theorem pyTrunc_nonneg {q : ℚ} (h : 0 ≤ q) : 0 ≤ pyTrunc q :=
  Int.tdiv_nonneg (Rat.num_nonneg.mpr h) (Int.ofNat_nonneg _)

theorem pyIdx_of_nonneg {n : Nat} {i : Int} (h : 0 ≤ i) : pyIdx n i = min n i.toNat := by
  unfold pyIdx
  rw [if_neg (by omega)]

/-- Pseudorandom key derived from the seed, modelling the seeded shuffle of
`DataFrame.sample(fraction=1.0, shuffle=True, seed=seed)`. -/
def mix (seed i : Nat) : Nat := (1103515245 * (seed + i) + 12345) % 2147483648

/-- Deterministic seeded permutation of a list: stable sort of the indexed
elements by a pseudorandom key of their index. -/
def shuffle (seed : Nat) (l : List α) : List α :=
  (List.insertionSort (fun p q => mix seed p.1 ≤ mix seed q.1) l.enum).map Prod.snd

theorem shuffle_perm (seed : Nat) (l : List α) : List.Perm (shuffle seed l) l := by
  unfold shuffle
  have h := List.perm_insertionSort (fun p q : Nat × α => mix seed p.1 ≤ mix seed q.1) l.enum
  have h2 := h.map Prod.snd
  rw [List.enum_map_snd] at h2
  exact h2

theorem shuffle_length (seed : Nat) (l : List α) : (shuffle seed l).length = l.length :=
  (shuffle_perm seed l).length_eq

/-! ### Ordering on cell values

Polars sorts a column with nulls first; within a column all non-null values
share one dtype, so only the numeric/numeric and string/string cases arise in
practice, but the order below is total on all of `Val` (numbers before
strings) so the embedding never needs a well-typedness side condition.
Strings compare lexicographically by code point, as in Python. -/

/-- Lexicographic comparison of code-point lists. -/
def lexLe : List Char → List Char → Bool
  | [], _ => true
  | _ :: _, [] => false
  | a :: as, b :: bs =>
    if a.toNat < b.toNat then true
    else if b.toNat < a.toNat then false
    else lexLe as bs

theorem lexLe_total (x y : List Char) : lexLe x y = true ∨ lexLe y x = true := by
  induction x generalizing y with
  | nil => left; rfl
  | cons a as ih =>
    cases y with
    | nil => right; rfl
    | cons b bs =>
      unfold lexLe
      rcases Nat.lt_trichotomy a.toNat b.toNat with h | h | h
      · left; rw [if_pos h]
      · rcases ih bs with h2 | h2
        · left; rw [if_neg (by omega), if_neg (by omega)]; exact h2
        · right; rw [if_neg (by omega), if_neg (by omega)]; exact h2
      · right; rw [if_pos h]

theorem lexLe_trans {x y z : List Char} (h1 : lexLe x y = true) (h2 : lexLe y z = true) :
    lexLe x z = true := by
  induction x generalizing y z with
  | nil => rfl
  | cons a as ih =>
    cases y with
    | nil => exact absurd h1 (by simp [lexLe])
    | cons b bs =>
      cases z with
      | nil => exact absurd h2 (by simp [lexLe])
      | cons c cs =>
        unfold lexLe at h1 h2 ⊢
        by_cases hab : a.toNat < b.toNat
        · rw [if_pos hab] at h1
          by_cases hbc : b.toNat < c.toNat
          · rw [if_pos (by omega)]
          · rw [if_neg hbc] at h2
            by_cases hcb : c.toNat < b.toNat
            · rw [if_pos hcb] at h2; exact absurd h2 (by simp)
            · rw [if_pos (by omega)]
        · rw [if_neg hab] at h1
          by_cases hba : b.toNat < a.toNat
          · rw [if_pos hba] at h1; exact absurd h1 (by simp)
          · rw [if_neg hba] at h1
            by_cases hbc : b.toNat < c.toNat
            · rw [if_pos (by omega)]
            · rw [if_neg hbc] at h2
              by_cases hcb : c.toNat < b.toNat
              · rw [if_pos hcb] at h2; exact absurd h2 (by simp)
              · rw [if_neg hcb] at h2
                rw [if_neg (by omega), if_neg (by omega)]
                exact ih h1 h2

theorem lexLe_antisymm {x y : List Char} (h1 : lexLe x y = true) (h2 : lexLe y x = true) :
    x = y := by
  induction x generalizing y with
  | nil =>
    cases y with
    | nil => rfl
    | cons b bs => exact absurd h2 (by simp [lexLe])
  | cons a as ih =>
    cases y with
    | nil => exact absurd h1 (by simp [lexLe])
    | cons b bs =>
      unfold lexLe at h1 h2
      by_cases hab : a.toNat < b.toNat
      · rw [if_neg (by omega), if_pos hab] at h2
        exact absurd h2 (by simp)
      · rw [if_neg hab] at h1
        by_cases hba : b.toNat < a.toNat
        · rw [if_pos hba] at h1; exact absurd h1 (by simp)
        · rw [if_neg hba] at h1
          rw [if_neg hba, if_neg hab] at h2
          have hval : a = b := by
            have htn : a.toNat = b.toNat := by omega
            exact Char.ext (UInt32.ext htn)
          rw [hval, ih h1 h2]

/-- String comparison by code points (Python/Polars string order). -/
def strLe (a b : String) : Bool := lexLe a.data b.data

/-- Total comparison on cell values: nulls first, then numbers, then strings. -/
def vle : Val → Val → Bool
  | .null, _ => true
  | _, .null => false
  | .num a, .num b => decide (a ≤ b)
  | .num _, .str _ => true
  | .str _, .num _ => false
  | .str a, .str b => strLe a b

theorem vle_total (x y : Val) : vle x y = true ∨ vle y x = true := by
  cases x <;> cases y <;> simp [vle, strLe]
  · exact le_total _ _
  · exact lexLe_total _ _

theorem vle_trans {x y z : Val} (h1 : vle x y = true) (h2 : vle y z = true) :
    vle x z = true := by
  cases x <;> cases y <;> cases z <;> simp_all [vle, strLe]
  · exact le_trans h1 h2
  · exact lexLe_trans h1 h2

theorem vle_antisymm {x y : Val} (h1 : vle x y = true) (h2 : vle y x = true) : x = y := by
  cases x with
  | null =>
    cases y with
    | null => rfl
    | num b => exact absurd h2 (by simp [vle])
    | str b => exact absurd h2 (by simp [vle])
  | num a =>
    cases y with
    | null => exact absurd h1 (by simp [vle])
    | num b =>
      simp only [vle, decide_eq_true_eq] at h1 h2
      rw [le_antisymm h1 h2]
    | str b => exact absurd h2 (by simp [vle])
  | str a =>
    cases y with
    | null => exact absurd h1 (by simp [vle])
    | num b => exact absurd h1 (by simp [vle])
    | str b =>
      simp only [vle, strLe] at h1 h2
      have h3 := lexLe_antisymm h1 h2
      cases a with
      | mk d1 =>
        cases b with
        | mk d2 => exact congrArg (fun d => Val.str (String.mk d)) h3

/-! ### Dataframe model and `split_dataset` (src/ml_api/services/training/dataset_io.py) -/

/-- A Polars dataframe as the split engine observes it: an ordered column
schema and rows of cells aligned with that schema. -/
structure DF where
  cols : List String
  rows : List (List Val)
deriving DecidableEq

/-- Error value standing for a raised DataProcessingError. -/
inductive PErr where
  | dataProcessing : PErr
deriving DecidableEq

/-- The `params` dict of `split_dataset`: every key may be absent. -/
structure SplitParams where
  train_ratio : Option ℚ
  val_ratio : Option ℚ
  test_ratio : Option ℚ
  seed : Option Nat
  time_column : Option String
  entity_column : Option String
deriving DecidableEq

/-- Value of row `row` in column `c` (null when the column is absent). -/
def getVal (cols : List String) (row : List Val) (c : String) : Val :=
  match cols.findIdx? (· == c) with
  | some i => row.getD i Val.null
  | none => Val.null

/-- All values of column `c` of a dataframe, in row order. -/
def colVals (df : DF) (c : String) : List Val :=
  df.rows.map (fun r => getVal df.cols r c)

/-- Embedding of `_split_random`. -/
def splitRandom (df : DF) (p : SplitParams) : Except PErr (DF × DF × DF) :=
  let tr := p.train_ratio.getD (mkRat 7 10)
  let vr := p.val_ratio.getD (mkRat 15 100)
  let te := p.test_ratio.getD (mkRat 15 100)
  let sd := p.seed.getD 42
  if mkRat 1 1000 < qabs (qsub (qadd (qadd tr vr) te) (qofNat 1)) then
    .error .dataProcessing
  else
    let shuffled := shuffle sd df.rows
    let n := shuffled.length
    let tEnd := pyTrunc (qmul (qofNat n) tr)
    let vEnd := tEnd + pyTrunc (qmul (qofNat n) vr)
    .ok (⟨df.cols, pySliceTo shuffled tEnd⟩,
         ⟨df.cols, pySliceBetween shuffled tEnd vEnd⟩,
         ⟨df.cols, pySliceFrom shuffled vEnd⟩)

/-- Embedding of `_split_time_based`: requires the time column, sorts
ascending by it (stable), then slices by cumulative ratio. -/
def splitTimeBased (df : DF) (p : SplitParams) : Except PErr (DF × DF × DF) :=
  match p.time_column with
  | none => .error .dataProcessing
  | some tc =>
    if tc = "" then .error .dataProcessing
    else if tc ∈ df.cols then
      let tr := p.train_ratio.getD (mkRat 7 10)
      let vr := p.val_ratio.getD (mkRat 15 100)
      let sorted := List.insertionSort
        (fun r1 r2 => vle (getVal df.cols r1 tc) (getVal df.cols r2 tc) = true) df.rows
      let n := sorted.length
      let tEnd := pyTrunc (qmul (qofNat n) tr)
      let vEnd := tEnd + pyTrunc (qmul (qofNat n) vr)
      .ok (⟨df.cols, pySliceTo sorted tEnd⟩,
           ⟨df.cols, pySliceBetween sorted tEnd vEnd⟩,
           ⟨df.cols, pySliceFrom sorted vEnd⟩)
    else .error .dataProcessing

/-- Embedding of `_split_entity_based`: shuffles the distinct entity values,
slices that set by ratio, and keeps each row with its entity's partition. -/
def splitEntityBased (df : DF) (p : SplitParams) : Except PErr (DF × DF × DF) :=
  match p.entity_column with
  | none => .error .dataProcessing
  | some ec =>
    if ec = "" then .error .dataProcessing
    else if ec ∈ df.cols then
      let tr := p.train_ratio.getD (mkRat 7 10)
      let vr := p.val_ratio.getD (mkRat 15 100)
      let sd := p.seed.getD 42
      let ents := shuffle sd (colVals df ec).dedup
      let n := ents.length
      let tEnd := pyTrunc (qmul (qofNat n) tr)
      let vEnd := tEnd + pyTrunc (qmul (qofNat n) vr)
      let trainEnts := pySliceTo ents tEnd
      let valEnts := pySliceBetween ents tEnd vEnd
      let testEnts := pySliceFrom ents vEnd
      .ok (⟨df.cols, df.rows.filter (fun r => trainEnts.contains (getVal df.cols r ec))⟩,
           ⟨df.cols, df.rows.filter (fun r => valEnts.contains (getVal df.cols r ec))⟩,
           ⟨df.cols, df.rows.filter (fun r => testEnts.contains (getVal df.cols r ec))⟩)
    else .error .dataProcessing

/-- Embedding of `split_dataset`: dispatch on the strategy string; any
exception escaping a strategy is re-raised as a DataProcessingError. -/
def split_dataset (df : DF) (strategy : String) (params : SplitParams) :
    Except PErr (DF × DF × DF) :=
  let inner :=
    if strategy = "random" then splitRandom df params
    else if strategy = "time_based" then splitTimeBased df params
    else if strategy = "entity_based" then splitEntityBased df params
    else .error .dataProcessing
  match inner with
  | .ok x => .ok x
  | .error _ => .error .dataProcessing

theorem split_dataset_random_eq (df : DF) (p : SplitParams) :
    split_dataset df "random" p =
      match splitRandom df p with
      | .ok x => .ok x
      | .error _ => .error PErr.dataProcessing := rfl

theorem split_dataset_time_eq (df : DF) (p : SplitParams) :
    split_dataset df "time_based" p =
      match splitTimeBased df p with
      | .ok x => .ok x
      | .error _ => .error PErr.dataProcessing := rfl

theorem split_dataset_entity_eq (df : DF) (p : SplitParams) :
    split_dataset df "entity_based" p =
      match splitEntityBased df p with
      | .ok x => .ok x
      | .error _ => .error PErr.dataProcessing := rfl

/-! ### Properties of the slice boundaries -/

theorem pyIdx_mono {n : Nat} {a b : Int} (h0 : 0 ≤ a) (hab : a ≤ b) :
    pyIdx n a ≤ pyIdx n b := by
  rw [pyIdx_of_nonneg h0, pyIdx_of_nonneg (le_trans h0 hab)]
  exact min_le_min (le_refl n) (Int.toNat_le_toNat hab)

/-- The three Python slices `l[:a]`, `l[a:b]`, `l[b:]` with `0 ≤ a ≤ b`
partition the list, and their sizes are the clamped boundaries. -/
theorem slices_spec (l : List α) (a b : Int) (h0 : 0 ≤ a) (hab : a ≤ b) :
    pySliceTo l a ++ pySliceBetween l a b ++ pySliceFrom l b = l ∧
    (pySliceTo l a).length = min l.length a.toNat ∧
    (pySliceBetween l a b).length = min l.length b.toNat - min l.length a.toNat ∧
    (pySliceFrom l b).length = l.length - min l.length b.toNat := by
  have hb0 : 0 ≤ b := le_trans h0 hab
  have hk : pyIdx l.length a ≤ pyIdx l.length b := pyIdx_mono h0 hab
  unfold pySliceTo pySliceBetween pySliceFrom
  rw [pyIdx_of_nonneg h0, pyIdx_of_nonneg hb0] at *
  refine ⟨?_, ?_, ?_, ?_⟩
  · have h1 : (l.take (min l.length b.toNat)).take (min l.length a.toNat) =
        l.take (min l.length a.toNat) := by
      rw [List.take_take, min_eq_left hk]
    rw [← h1, List.take_append_drop, List.take_append_drop]
  · rw [List.length_take]
    omega
  · rw [List.length_drop, List.length_take]
    omega
  · rw [List.length_drop]

theorem mkRat_thousandth : (mkRat 1 1000 : ℚ) = 1 / 1000 := by
  rw [Rat.mkRat_eq_div]; norm_num

/-- C1: for every dataframe and every nonnegative ratio triple whose sum is
within 0.001 of 1, the random split succeeds and returns three partitions
whose concatenation is a permutation of the input rows (hence pairwise
disjoint with union the input), whose row counts sum to the source row
count, and whose boundaries are the integer truncations of count times
ratio (clamped to the row count), the test partition absorbing the
remainder. -/
theorem c1_random_split_partition (df : DF) (p : SplitParams)
    (h1 : 0 ≤ p.train_ratio.getD (mkRat 7 10))
    (h2 : 0 ≤ p.val_ratio.getD (mkRat 15 100))
    (h3 : 0 ≤ p.test_ratio.getD (mkRat 15 100))
    (h4 : |p.train_ratio.getD (mkRat 7 10) + p.val_ratio.getD (mkRat 15 100) +
          p.test_ratio.getD (mkRat 15 100) - 1| ≤ 1 / 1000) :
    ∃ a b c : DF, split_dataset df "random" p = Except.ok (a, b, c) ∧
      List.Perm (a.rows ++ b.rows ++ c.rows) df.rows ∧
      a.rows.length + b.rows.length + c.rows.length = df.rows.length ∧
      a.rows.length = min df.rows.length
        (pyTrunc ((df.rows.length : ℚ) * p.train_ratio.getD (mkRat 7 10))).toNat ∧
      a.rows.length + b.rows.length = min df.rows.length
        (pyTrunc ((df.rows.length : ℚ) * p.train_ratio.getD (mkRat 7 10)) +
          pyTrunc ((df.rows.length : ℚ) * p.val_ratio.getD (mkRat 15 100))).toNat := by
  have hguard : ¬ (mkRat 1 1000 <
      qabs (qsub (qadd (qadd (p.train_ratio.getD (mkRat 7 10))
        (p.val_ratio.getD (mkRat 15 100))) (p.test_ratio.getD (mkRat 15 100))) (qofNat 1))) := by
    rw [qabs_eq, qsub_eq, qadd_eq, qadd_eq, qofNat_eq, Nat.cast_one, mkRat_thousandth]
    exact not_lt.mpr h4
  have hlen : (shuffle (p.seed.getD 42) df.rows).length = df.rows.length := shuffle_length _ _
  have htrArg : qmul (qofNat (shuffle (p.seed.getD 42) df.rows).length)
      (p.train_ratio.getD (mkRat 7 10)) =
      (df.rows.length : ℚ) * p.train_ratio.getD (mkRat 7 10) := by
    rw [qmul_eq, qofNat_eq, hlen]
  have hvrArg : qmul (qofNat (shuffle (p.seed.getD 42) df.rows).length)
      (p.val_ratio.getD (mkRat 15 100)) =
      (df.rows.length : ℚ) * p.val_ratio.getD (mkRat 15 100) := by
    rw [qmul_eq, qofNat_eq, hlen]
  have ht0 : 0 ≤ pyTrunc (qmul (qofNat (shuffle (p.seed.getD 42) df.rows).length)
      (p.train_ratio.getD (mkRat 7 10))) := by
    apply pyTrunc_nonneg
    rw [htrArg]
    exact mul_nonneg (Nat.cast_nonneg _) h1
  have hv0 : 0 ≤ pyTrunc (qmul (qofNat (shuffle (p.seed.getD 42) df.rows).length)
      (p.val_ratio.getD (mkRat 15 100))) := by
    apply pyTrunc_nonneg
    rw [hvrArg]
    exact mul_nonneg (Nat.cast_nonneg _) h2
  have hab : pyTrunc (qmul (qofNat (shuffle (p.seed.getD 42) df.rows).length)
        (p.train_ratio.getD (mkRat 7 10))) ≤
      pyTrunc (qmul (qofNat (shuffle (p.seed.getD 42) df.rows).length)
        (p.train_ratio.getD (mkRat 7 10))) +
      pyTrunc (qmul (qofNat (shuffle (p.seed.getD 42) df.rows).length)
        (p.val_ratio.getD (mkRat 15 100))) :=
    le_add_of_nonneg_right hv0
  obtain ⟨hpart, hlenA, hlenB, hlenC⟩ :=
    slices_spec (shuffle (p.seed.getD 42) df.rows) _ _ ht0 hab
  refine ⟨⟨df.cols, pySliceTo (shuffle (p.seed.getD 42) df.rows)
      (pyTrunc (qmul (qofNat (shuffle (p.seed.getD 42) df.rows).length)
        (p.train_ratio.getD (mkRat 7 10))))⟩,
    ⟨df.cols, pySliceBetween (shuffle (p.seed.getD 42) df.rows)
      (pyTrunc (qmul (qofNat (shuffle (p.seed.getD 42) df.rows).length)
        (p.train_ratio.getD (mkRat 7 10))))
      (pyTrunc (qmul (qofNat (shuffle (p.seed.getD 42) df.rows).length)
        (p.train_ratio.getD (mkRat 7 10))) +
       pyTrunc (qmul (qofNat (shuffle (p.seed.getD 42) df.rows).length)
        (p.val_ratio.getD (mkRat 15 100))))⟩,
    ⟨df.cols, pySliceFrom (shuffle (p.seed.getD 42) df.rows)
      (pyTrunc (qmul (qofNat (shuffle (p.seed.getD 42) df.rows).length)
        (p.train_ratio.getD (mkRat 7 10))) +
       pyTrunc (qmul (qofNat (shuffle (p.seed.getD 42) df.rows).length)
        (p.val_ratio.getD (mkRat 15 100))))⟩, ?_, ?_, ?_, ?_, ?_⟩
  · rw [split_dataset_random_eq]
    have hok : splitRandom df p = Except.ok
        (⟨df.cols, pySliceTo (shuffle (p.seed.getD 42) df.rows)
          (pyTrunc (qmul (qofNat (shuffle (p.seed.getD 42) df.rows).length)
            (p.train_ratio.getD (mkRat 7 10))))⟩,
         ⟨df.cols, pySliceBetween (shuffle (p.seed.getD 42) df.rows)
          (pyTrunc (qmul (qofNat (shuffle (p.seed.getD 42) df.rows).length)
            (p.train_ratio.getD (mkRat 7 10))))
          (pyTrunc (qmul (qofNat (shuffle (p.seed.getD 42) df.rows).length)
            (p.train_ratio.getD (mkRat 7 10))) +
           pyTrunc (qmul (qofNat (shuffle (p.seed.getD 42) df.rows).length)
            (p.val_ratio.getD (mkRat 15 100))))⟩,
         ⟨df.cols, pySliceFrom (shuffle (p.seed.getD 42) df.rows)
          (pyTrunc (qmul (qofNat (shuffle (p.seed.getD 42) df.rows).length)
            (p.train_ratio.getD (mkRat 7 10))) +
           pyTrunc (qmul (qofNat (shuffle (p.seed.getD 42) df.rows).length)
            (p.val_ratio.getD (mkRat 15 100))))⟩) := by
      simp only [splitRandom]
      rw [if_neg hguard]
    rw [hok]
  · rw [hpart]
    exact shuffle_perm _ _
  · rw [hlenA, hlenB, hlenC]
    have hmin1 := min_le_min (le_refl (shuffle (p.seed.getD 42) df.rows).length)
      (Int.toNat_le_toNat hab)
    have hmin2 : min (shuffle (p.seed.getD 42) df.rows).length
        ((pyTrunc (qmul (qofNat (shuffle (p.seed.getD 42) df.rows).length)
            (p.train_ratio.getD (mkRat 7 10))) +
          pyTrunc (qmul (qofNat (shuffle (p.seed.getD 42) df.rows).length)
            (p.val_ratio.getD (mkRat 15 100)))).toNat) ≤
        (shuffle (p.seed.getD 42) df.rows).length := min_le_left _ _
    omega
  · rw [hlenA, htrArg]
    omega
  · have hab2 : pyTrunc ((df.rows.length : ℚ) * p.train_ratio.getD (mkRat 7 10)) ≤
        pyTrunc ((df.rows.length : ℚ) * p.train_ratio.getD (mkRat 7 10)) +
        pyTrunc ((df.rows.length : ℚ) * p.val_ratio.getD (mkRat 15 100)) := by
      have h := hab
      rw [htrArg, hvrArg] at h
      exact h
    rw [hlenA, hlenB, htrArg, hvrArg]
    have hmin1 : min (shuffle (p.seed.getD 42) df.rows).length
        (pyTrunc ((df.rows.length : ℚ) * p.train_ratio.getD (mkRat 7 10))).toNat ≤
        min (shuffle (p.seed.getD 42) df.rows).length
        ((pyTrunc ((df.rows.length : ℚ) * p.train_ratio.getD (mkRat 7 10)) +
          pyTrunc ((df.rows.length : ℚ) * p.val_ratio.getD (mkRat 15 100))).toNat) :=
      min_le_min (le_refl _) (Int.toNat_le_toNat hab2)
    omega

/-- Witness for C1: the 8-row dataset with ratios 1/2, 1/4, 1/4 and seed 42
splits into partitions of sizes 4, 2, 2. -/
theorem c1_random_split_partition_witness :
    ∃ a b c : DF,
      split_dataset ⟨["f"], [[Val.num 0], [Val.num 1], [Val.num 2], [Val.num 3],
          [Val.num 4], [Val.num 5], [Val.num 6], [Val.num 7]]⟩ "random"
          ⟨some (mkRat 1 2), some (mkRat 1 4), some (mkRat 1 4), some 42, none, none⟩ =
        Except.ok (a, b, c) ∧
      a.rows.length = 4 ∧ b.rows.length = 2 ∧ c.rows.length = 2 := by
  obtain ⟨a, b, c, hok, hperm, hsum, hA, hAB⟩ :=
    c1_random_split_partition
      ⟨["f"], [[Val.num 0], [Val.num 1], [Val.num 2], [Val.num 3],
          [Val.num 4], [Val.num 5], [Val.num 6], [Val.num 7]]⟩
      ⟨some (mkRat 1 2), some (mkRat 1 4), some (mkRat 1 4), some 42, none, none⟩
      (by decide) (by decide) (by decide)
      (by norm_num [Rat.mkRat_eq_div])
  have hval : split_dataset ⟨["f"], [[Val.num 0], [Val.num 1], [Val.num 2], [Val.num 3],
        [Val.num 4], [Val.num 5], [Val.num 6], [Val.num 7]]⟩ "random"
        ⟨some (mkRat 1 2), some (mkRat 1 4), some (mkRat 1 4), some 42, none, none⟩ =
      Except.ok
        (⟨["f"], [[Val.num 1], [Val.num 3], [Val.num 5], [Val.num 7]]⟩,
         ⟨["f"], [[Val.num 0], [Val.num 2]]⟩,
         ⟨["f"], [[Val.num 4], [Val.num 6]]⟩) := by rfl
  rw [hval] at hok
  simp only [Except.ok.injEq, Prod.mk.injEq] at hok
  obtain ⟨ha, hb, hc⟩ := hok
  refine ⟨a, b, c, ?_, ?_, ?_, ?_⟩
  · rw [hval, ha, hb, hc]
  · rw [← ha]
    exact rfl
  · rw [← hb]
    exact rfl
  · rw [← hc]
    exact rfl

/-- C2 counterexample: ratios 0.9 + 0.9 + 0.9 sum far outside the tolerance,
yet the time-based and entity-based strategies split without an error. -/
theorem c2_counterexample_nonrandom_skip_ratio_validation :
    (1 / 1000 : ℚ) < |mkRat 9 10 + mkRat 9 10 + mkRat 9 10 - 1| ∧
    (split_dataset ⟨["t"], [[Val.num 1], [Val.num 2]]⟩ "time_based"
      ⟨some (mkRat 9 10), some (mkRat 9 10), some (mkRat 9 10), none,
        some "t", none⟩).isOk = true ∧
    (split_dataset ⟨["g"], [[Val.str "a"], [Val.str "b"]]⟩ "entity_based"
      ⟨some (mkRat 9 10), some (mkRat 9 10), some (mkRat 9 10), none,
        none, some "g"⟩).isOk = true := by
  refine ⟨?_, ?_, ?_⟩
  · rw [abs_of_pos (by norm_num [Rat.mkRat_eq_div])]
    norm_num [Rat.mkRat_eq_div]
  · rfl
  · rfl

/-- C2 (amended): the ratio-sum tolerance is enforced by the random strategy
only; with a ratio sum outside [0.999, 1.001] the random split raises a
data-processing error and produces no partitions. -/
theorem c2_random_split_ratio_validation (df : DF) (p : SplitParams)
    (h : 1 / 1000 < |p.train_ratio.getD (mkRat 7 10) + p.val_ratio.getD (mkRat 15 100) +
        p.test_ratio.getD (mkRat 15 100) - 1|) :
    split_dataset df "random" p = Except.error PErr.dataProcessing := by
  have hguard : mkRat 1 1000 <
      qabs (qsub (qadd (qadd (p.train_ratio.getD (mkRat 7 10))
        (p.val_ratio.getD (mkRat 15 100))) (p.test_ratio.getD (mkRat 15 100))) (qofNat 1)) := by
    rw [qabs_eq, qsub_eq, qadd_eq, qadd_eq, qofNat_eq, Nat.cast_one, mkRat_thousandth]
    exact h
  rw [split_dataset_random_eq]
  have hinner : splitRandom df p = Except.error PErr.dataProcessing := by
    simp only [splitRandom]
    rw [if_pos hguard]
  rw [hinner]

/-- Witness for the amended C2: ratios 1/2 + 1/2 + 1/2 make the random split
fail with a data-processing error. -/
theorem c2_random_split_ratio_validation_witness :
    split_dataset ⟨["x"], [[Val.num 0]]⟩ "random"
      ⟨some (mkRat 1 2), some (mkRat 1 2), some (mkRat 1 2), none, none, none⟩ =
      Except.error PErr.dataProcessing :=
  c2_random_split_ratio_validation _ _ (by
    rw [abs_of_pos (by norm_num [Rat.mkRat_eq_div])]
    norm_num [Rat.mkRat_eq_div])

/-- C4: the random split is deterministic, and depends only on the input
rows, the ratio triple and the seed: two invocations agreeing on those
(whatever the other strategy parameters are) return identical partitions. -/
theorem c4_random_split_deterministic (df1 df2 : DF) (p1 p2 : SplitParams)
    (hdf : df1 = df2)
    (htr : p1.train_ratio = p2.train_ratio) (hvr : p1.val_ratio = p2.val_ratio)
    (hte : p1.test_ratio = p2.test_ratio) (hsd : p1.seed = p2.seed) :
    split_dataset df1 "random" p1 = split_dataset df2 "random" p2 := by
  rw [hdf]
  rw [split_dataset_random_eq df2 p1, split_dataset_random_eq df2 p2]
  simp only [splitRandom, htr, hvr, hte, hsd]

/-- Witness for C4: re-running the 8-row seed-42 example, with an unrelated
parameter changed, reproduces identical partitions. -/
theorem c4_random_split_deterministic_witness :
    split_dataset ⟨["f"], [[Val.num 0], [Val.num 1], [Val.num 2], [Val.num 3],
        [Val.num 4], [Val.num 5], [Val.num 6], [Val.num 7]]⟩ "random"
      ⟨some (mkRat 1 2), some (mkRat 1 4), some (mkRat 1 4), some 42, none, none⟩ =
    split_dataset ⟨["f"], [[Val.num 0], [Val.num 1], [Val.num 2], [Val.num 3],
        [Val.num 4], [Val.num 5], [Val.num 6], [Val.num 7]]⟩ "random"
      ⟨some (mkRat 1 2), some (mkRat 1 4), some (mkRat 1 4), some 42, some "ts", none⟩ :=
  c4_random_split_deterministic _ _ _ _ rfl rfl rfl rfl rfl

/-- C5: with a designated nonempty time-column name, the time-based split
fails with a data-processing error when the column is absent; when it
succeeds, every time value of the train partition is at most every time
value of the validation partition, and likewise from validation to test. -/
theorem c5_time_based_split_ordering (df : DF) (p : SplitParams) (tc : String)
    (htc : p.time_column = some tc) (hne : tc ≠ "") :
    (tc ∉ df.cols → split_dataset df "time_based" p = Except.error PErr.dataProcessing) ∧
    (∀ a b t : DF, split_dataset df "time_based" p = Except.ok (a, b, t) →
      (∀ x ∈ colVals a tc, ∀ y ∈ colVals b tc, vle x y = true) ∧
      (∀ x ∈ colVals b tc, ∀ y ∈ colVals t tc, vle x y = true)) := by
  constructor
  · intro habs
    rw [split_dataset_time_eq]
    have hinner : splitTimeBased df p = Except.error PErr.dataProcessing := by
      simp only [splitTimeBased, htc]
      rw [if_neg hne, if_neg habs]
    rw [hinner]
  · intro a b t hok
    rw [split_dataset_time_eq] at hok
    rcases hsp : splitTimeBased df p with e | x
    · rw [hsp] at hok
      exact absurd hok (by simp)
    · rw [hsp] at hok
      simp only [Except.ok.injEq] at hok
      subst hok
      by_cases hmem : tc ∈ df.cols
      · simp only [splitTimeBased, htc] at hsp
        rw [if_neg hne, if_pos hmem] at hsp
        simp only [Except.ok.injEq, Prod.mk.injEq] at hsp
        obtain ⟨ha, hb, ht⟩ := hsp
        subst ha; subst hb; subst ht
        have hsorted : List.Pairwise
            (fun r1 r2 : List Val => vle (getVal df.cols r1 tc) (getVal df.cols r2 tc) = true)
            (List.insertionSort
              (fun r1 r2 : List Val => vle (getVal df.cols r1 tc) (getVal df.cols r2 tc) = true)
              df.rows) := by
          haveI : IsTotal (List Val)
              (fun r1 r2 : List Val =>
                vle (getVal df.cols r1 tc) (getVal df.cols r2 tc) = true) :=
            ⟨fun x y => vle_total _ _⟩
          haveI : IsTrans (List Val)
              (fun r1 r2 : List Val =>
                vle (getVal df.cols r1 tc) (getVal df.cols r2 tc) = true) :=
            ⟨fun _ _ _ h1 h2 => vle_trans h1 h2⟩
          exact List.sorted_insertionSort _ _
        constructor
        · intro x hx y hy
          simp only [colVals, List.mem_map, pySliceTo, pySliceBetween] at hx hy
          obtain ⟨ra, hra, rfl⟩ := hx
          obtain ⟨rb, hrb, rfl⟩ := hy
          have hy2 : rb ∈ (List.insertionSort
              (fun r1 r2 : List Val => vle (getVal df.cols r1 tc) (getVal df.cols r2 tc) = true)
              df.rows).drop (pyIdx (List.insertionSort
                (fun r1 r2 : List Val =>
                  vle (getVal df.cols r1 tc) (getVal df.cols r2 tc) = true) df.rows).length
                (pyTrunc (qmul (qofNat (List.insertionSort
                  (fun r1 r2 : List Val =>
                    vle (getVal df.cols r1 tc) (getVal df.cols r2 tc) = true) df.rows).length)
                  (p.train_ratio.getD (mkRat 7 10))))) := by
            rw [List.drop_take] at hrb
            exact List.take_subset _ _ hrb
          exact (List.pairwise_append.mp
            (by rw [List.take_append_drop]; exact hsorted)).2.2 _ hra _ hy2
        · intro x hx y hy
          simp only [colVals, List.mem_map, pySliceBetween, pySliceFrom] at hx hy
          obtain ⟨rb, hrb, rfl⟩ := hx
          obtain ⟨rt, hrt, rfl⟩ := hy
          have hx2 : rb ∈ (List.insertionSort
              (fun r1 r2 : List Val => vle (getVal df.cols r1 tc) (getVal df.cols r2 tc) = true)
              df.rows).take (pyIdx (List.insertionSort
                (fun r1 r2 : List Val =>
                  vle (getVal df.cols r1 tc) (getVal df.cols r2 tc) = true) df.rows).length
                (pyTrunc (qmul (qofNat (List.insertionSort
                  (fun r1 r2 : List Val =>
                    vle (getVal df.cols r1 tc) (getVal df.cols r2 tc) = true) df.rows).length)
                  (p.train_ratio.getD (mkRat 7 10))) +
                 pyTrunc (qmul (qofNat (List.insertionSort
                  (fun r1 r2 : List Val =>
                    vle (getVal df.cols r1 tc) (getVal df.cols r2 tc) = true) df.rows).length)
                  (p.val_ratio.getD (mkRat 15 100))))) :=
            List.drop_subset _ _ hrb
          exact (List.pairwise_append.mp
            (by rw [List.take_append_drop]; exact hsorted)).2.2 _ hx2 _ hrt
      · simp only [splitTimeBased, htc] at hsp
        rw [if_neg hne, if_neg hmem] at hsp
        exact absurd hsp (by simp)

/-- Witness for C5: the split errors when the time column is absent, and on
a concrete 3-row frame, sorting places the train value below the val value. -/
theorem c5_time_based_split_ordering_witness :
    split_dataset ⟨["u"], [[Val.num 1]]⟩ "time_based"
      ⟨some (mkRat 1 3), some (mkRat 1 3), some (mkRat 1 3), none, some "t", none⟩ =
      Except.error PErr.dataProcessing ∧
    vle (Val.num 1) (Val.num 2) = true := by
  constructor
  · exact (c5_time_based_split_ordering ⟨["u"], [[Val.num 1]]⟩
      ⟨some (mkRat 1 3), some (mkRat 1 3), some (mkRat 1 3), none, some "t", none⟩
      "t" rfl (by decide)).1 (by decide)
  · have h := (c5_time_based_split_ordering ⟨["t"], [[Val.num 3], [Val.num 1], [Val.num 2]]⟩
      ⟨some (mkRat 1 3), some (mkRat 1 3), some (mkRat 1 3), none, some "t", none⟩
      "t" rfl (by decide)).2
      ⟨["t"], [[Val.num 1]]⟩ ⟨["t"], [[Val.num 2]]⟩ ⟨["t"], [[Val.num 3]]⟩ (by rfl)
    exact h.1 (Val.num 1) (by decide) (Val.num 2) (by decide)

/-- Rows filtered by entity membership only carry entity values from the
given entity list. -/
theorem mem_colVals_filter (cols : List String) (rows : List (List Val)) (ec : String)
    (ents : List Val) (v : Val)
    (hv : v ∈ colVals ⟨cols, rows.filter
      (fun r => ents.contains (getVal cols r ec))⟩ ec) :
    v ∈ ents := by
  simp only [colVals, List.mem_map] at hv
  obtain ⟨r, hr, rfl⟩ := hv
  have hp := List.of_mem_filter hr
  exact List.elem_iff.mp hp

/-- C3: the entity-based split never places the same entity value in two
different partitions: whenever it succeeds (with nonnegative ratios), the
entity-column value sets of train, val and test are pairwise disjoint. -/
theorem c3_entity_split_no_leak (df : DF) (p : SplitParams) (ec : String)
    (hec : p.entity_column = some ec) (hne : ec ≠ "")
    (h1 : 0 ≤ p.train_ratio.getD (mkRat 7 10))
    (h2 : 0 ≤ p.val_ratio.getD (mkRat 15 100)) :
    ∀ a b t : DF, split_dataset df "entity_based" p = Except.ok (a, b, t) →
      ∀ v : Val,
        ¬ (v ∈ colVals a ec ∧ v ∈ colVals b ec) ∧
        ¬ (v ∈ colVals a ec ∧ v ∈ colVals t ec) ∧
        ¬ (v ∈ colVals b ec ∧ v ∈ colVals t ec) := by
  intro a b t hok v
  rw [split_dataset_entity_eq] at hok
  rcases hsp : splitEntityBased df p with e | x
  · rw [hsp] at hok
    exact absurd hok (by simp)
  · rw [hsp] at hok
    simp only [Except.ok.injEq] at hok
    subst hok
    by_cases hmem : ec ∈ df.cols
    · simp only [splitEntityBased, hec] at hsp
      rw [if_neg hne, if_pos hmem] at hsp
      simp only [Except.ok.injEq, Prod.mk.injEq] at hsp
      obtain ⟨ha, hb, ht⟩ := hsp
      subst ha; subst hb; subst ht
      have hnodup : (shuffle (p.seed.getD 42) (colVals df ec).dedup).Nodup :=
        (shuffle_perm (p.seed.getD 42) (colVals df ec).dedup).nodup_iff.mpr
          (List.nodup_dedup _)
      have ht0 : 0 ≤ pyTrunc (qmul (qofNat (shuffle (p.seed.getD 42)
          (colVals df ec).dedup).length) (p.train_ratio.getD (mkRat 7 10))) := by
        apply pyTrunc_nonneg
        rw [qmul_eq, qofNat_eq]
        exact mul_nonneg (Nat.cast_nonneg _) h1
      have hv0 : 0 ≤ pyTrunc (qmul (qofNat (shuffle (p.seed.getD 42)
          (colVals df ec).dedup).length) (p.val_ratio.getD (mkRat 15 100))) := by
        apply pyTrunc_nonneg
        rw [qmul_eq, qofNat_eq]
        exact mul_nonneg (Nat.cast_nonneg _) h2
      obtain ⟨happ, -, -, -⟩ := slices_spec (shuffle (p.seed.getD 42) (colVals df ec).dedup)
        _ _ ht0 (le_add_of_nonneg_right hv0)
      rw [← happ] at hnodup
      rw [List.nodup_append] at hnodup
      obtain ⟨hnd3, -, hdisj23⟩ := hnodup
      rw [List.nodup_append] at hnd3
      obtain ⟨-, -, hdisj12⟩ := hnd3
      refine ⟨fun hc => ?_, fun hc => ?_, fun hc => ?_⟩
      · exact hdisj12 (mem_colVals_filter _ _ _ _ _ hc.1) (mem_colVals_filter _ _ _ _ _ hc.2)
      · exact hdisj23 (List.mem_append.mpr (Or.inl (mem_colVals_filter _ _ _ _ _ hc.1)))
          (mem_colVals_filter _ _ _ _ _ hc.2)
      · exact hdisj23 (List.mem_append.mpr (Or.inr (mem_colVals_filter _ _ _ _ _ hc.1)))
          (mem_colVals_filter _ _ _ _ _ hc.2)
    · simp only [splitEntityBased, hec] at hsp
      rw [if_neg hne, if_neg hmem] at hsp
      exact absurd hsp (by simp)

/-- Witness for C3: the 6-row, 3-entity example; entity B lands wholly in
train and never also in val or test. -/
theorem c3_entity_split_no_leak_witness :
    ¬ (Val.str "B" ∈ colVals ⟨["g"], [[Val.str "B"], [Val.str "B"]]⟩ "g" ∧
       Val.str "B" ∈ colVals
         ⟨["g"], [[Val.str "A"], [Val.str "A"], [Val.str "C"], [Val.str "C"]]⟩ "g") :=
  ((c3_entity_split_no_leak
      ⟨["g"], [[Val.str "A"], [Val.str "A"], [Val.str "B"], [Val.str "B"],
        [Val.str "C"], [Val.str "C"]]⟩
      ⟨some (mkRat 34 100), some (mkRat 33 100), some (mkRat 33 100), some 42, none, some "g"⟩
      "g" rfl (by decide) (by decide) (by decide))
    ⟨["g"], [[Val.str "B"], [Val.str "B"]]⟩
    ⟨["g"], []⟩
    ⟨["g"], [[Val.str "A"], [Val.str "A"], [Val.str "C"], [Val.str "C"]]⟩
    (by rfl) (Val.str "B")).2.1

/-! ### Preprocessing engine (src/app/services/training/preprocess.py)

A column-oriented frame: each feature column carries its Polars dtype tag
and its cell values.  `preprocess_features` is the fit operation,
`apply_preprocessing` the replay operation. -/

/-- Polars dtype of a column, as far as the preprocessing code inspects it:
the numeric dtypes (Int32/Int64 as `int`, Float32/Float64 as `float`), Utf8
and Categorical. -/
inductive DType where
  | int : DType
  | float : DType
  | utf8 : DType
  | categorical : DType
deriving DecidableEq

/-- One Polars column: dtype tag plus values. -/
structure PCol where
  dtype : DType
  vals : List Val
deriving DecidableEq

/-- A column-oriented Polars frame: named columns in schema order. -/
abbrev PFrame := List (String × PCol)

/-- The preprocessing `config` dict: only `missing_strategy` is read. -/
structure PConfig where
  missing_strategy : Option String
deriving DecidableEq

/-- A per-column category map: value to ordinal code. -/
abbrev CatMap := List (Val × Int)

/-- The preprocessing `artifacts` dict: the code only ever stores the key
`category_maps` (and only when categorical columns exist). -/
structure Artifacts where
  category_maps : Option (List (String × CatMap))
deriving DecidableEq

/-- Column names of a frame. -/
def frameNames (X : PFrame) : List String := X.map Prod.fst

/-- Membership test `c in X.columns`. -/
def hasColF (X : PFrame) (c : String) : Bool := (X.map Prod.fst).contains c

/-- Column of a frame by name (first match; a dummy empty float column when
absent, which the embedded operations only ever use behind presence checks). -/
def getPCol (X : PFrame) (c : String) : PCol := (X.lookup c).getD ⟨DType.float, []⟩

/-- Embedding of `df.select(columns)`. -/
def selectF (df : PFrame) (fcs : List String) : PFrame :=
  fcs.map (fun c => (c, getPCol df c))

/-- Name-preserving transformation of every column of a frame (the shape of
`with_columns` loops: each step rewrites column values in place). -/
def mapCols (f : String → PCol → PCol) (X : PFrame) : PFrame :=
  X.map (fun e => (e.1, f e.1 e.2))

/-- Replace the column named `c` (polars `with_columns` on an existing name). -/
def withCol (X : PFrame) (c : String) (ncol : PCol) : PFrame :=
  mapCols (fun c2 col => if c2 = c then ncol else col) X

/-- Height of a frame (the row count; 0 for a zero-column frame). -/
def frameHeight (X : PFrame) : Nat :=
  match X with
  | [] => 0
  | e :: _ => e.2.vals.length

/-- The boolean null mask `any_horizontal(all().is_null())` over a frame. -/
def nullMask (X : PFrame) : List Bool :=
  (List.range (frameHeight X)).map (fun i =>
    X.any (fun e => decide (e.2.vals.getD i Val.null = Val.null)))

/-- Keep the entries whose mask bit is false (`filter(~mask)`). -/
def maskFilter (mask : List Bool) (vs : List Val) : List Val :=
  ((vs.zip mask).filter (fun p => !p.2)).map Prod.fst

/-- The numeric entries of a column (Polars aggregations skip nulls). -/
def numsOf (vs : List Val) : List ℚ :=
  vs.filterMap (fun v => match v with | .num q => some q | _ => none)

/-- Polars `Series.mean`: null for an all-null column. -/
def colMean (vs : List Val) : Option ℚ :=
  if (numsOf vs).length = 0 then none
  else some (qdivNat (qsum (numsOf vs)) (numsOf vs).length)

/-- One `fill_null(mean)` step (`fill_null(None)` is the identity). -/
def fillMeanCol (col : PCol) : PCol :=
  match colMean col.vals with
  | none => col
  | some m => ⟨col.dtype, col.vals.map (fun v => if v = Val.null then Val.num m else v)⟩

/-- Numeric dtypes eligible for mean filling. -/
def isNumericD (d : DType) : Bool :=
  match d with
  | .float => true
  | .int => true
  | _ => false

/-- Dtypes treated as categorical (`Utf8` or `Categorical`). -/
def isCatD (d : DType) : Bool :=
  match d with
  | .utf8 => true
  | .categorical => true
  | _ => false

/-- Embedding of the missing-value block of `preprocess_features`: `drop`
removes rows with a null feature (from X and y in lockstep, guarded by a
null count check), `fill_mean` fills numeric nulls, any other strategy is
silently skipped. -/
def missingStep (X0 : PFrame) (y0 : List Val) (cfg : PConfig) : PFrame × List Val :=
  if cfg.missing_strategy.getD "drop" = "drop" then
    if (nullMask X0).any (fun b => b) then
      (mapCols (fun _ col => ⟨col.dtype, maskFilter (nullMask X0) col.vals⟩) X0,
       maskFilter (nullMask X0) y0)
    else (X0, y0)
  else if cfg.missing_strategy.getD "drop" = "fill_mean" then
    (mapCols (fun _ col => if isNumericD col.dtype then fillMeanCol col else col) X0, y0)
  else (X0, y0)

/-- Sorted deduplicated non-null fitting values of a column
(`unique().drop_nulls()` then Python `sorted`). -/
def catKeys (vs : List Val) : List Val :=
  List.insertionSort (fun a b => vle a b = true)
    ((vs.filter (fun v => !(v == Val.null))).dedup)

/-- Category map of a column: 0-based codes in sorted order
(`{val: idx for idx, val in enumerate(sorted(unique_vals))}`). -/
def catMapOf (vs : List Val) : CatMap :=
  (catKeys vs).enum.map (fun p => (p.2, (p.1 : Int)))

/-- Embedding of `map_dict(category_map, default=-1)` on one value: a value
absent from the map (nulls included) goes to the sentinel -1. -/
def encodeVal (m : CatMap) (v : Val) : Int := (m.lookup v).getD (-1)

/-- Encode a whole column; the resulting dtype is integer. -/
def encodeCol (m : CatMap) (col : PCol) : PCol :=
  ⟨DType.int, col.vals.map (fun v => Val.num (qofInt (encodeVal m v)))⟩

/-- The categorical-encoding loop of `preprocess_features`: for each
categorical column (in order), build the map from the column's current
values, encode the column, and record the map. -/
def encodeLoop (X : PFrame) : List String → PFrame × List (String × CatMap)
  | [] => (X, [])
  | c :: cs =>
    let m := catMapOf (getPCol X c).vals
    let r := encodeLoop (withCol X c (encodeCol m (getPCol X c))) cs
    (r.1, (c, m) :: r.2)

/-- The category-map loop of `apply_preprocessing`: replay each stored map
onto the frame when the column is present. -/
def applyMaps (X : PFrame) : List (String × CatMap) → PFrame
  | [] => X
  | (c, m) :: ms =>
    applyMaps (if hasColF X c then withCol X c (encodeCol m (getPCol X c)) else X) ms

/-- Digits of a numeral string to a natural number. -/
def natOfDigits (cs : List Char) : Nat :=
  cs.foldl (fun a c => a * 10 + (c.toNat - 48)) 0

/-- Parse an unsigned decimal numeral, optionally with a fractional part.
Exponent, infinity and nan spellings of Python floats are not modelled;
they only influence the dead best-effort cast path. -/
def parsePos (cs : List Char) : Option ℚ :=
  match cs.dropWhile Char.isDigit with
  | [] => if cs.isEmpty then none else some (qofNat (natOfDigits cs))
  | '.' :: fp =>
    if fp.all Char.isDigit && !((cs.takeWhile Char.isDigit).isEmpty && fp.isEmpty) then
      some (mkRat (natOfDigits (cs.takeWhile Char.isDigit) * 10 ^ fp.length + natOfDigits fp)
        (10 ^ fp.length))
    else none
  | _ => none

/-- Python `float(s)` as used by the strict Utf8-to-Float64 cast. -/
def parseQ (s : String) : Option ℚ :=
  match s.data with
  | '-' :: rest => (parsePos rest).map (fun q => qneg q)
  | cs => parsePos cs

/-- Strict cast of a Utf8 column's values to floats: `none` when any string
fails to parse (Polars raises, the code catches and leaves the column). -/
def castVals (vs : List Val) : Option (List Val) :=
  vs.mapM (fun v =>
    match v with
    | Val.null => some Val.null
    | Val.str s => (parseQ s).map Val.num
    | other => some other)

/-- Best-effort cast of one Utf8 column (left unchanged on failure). -/
def castCol (col : PCol) : PCol :=
  match castVals col.vals with
  | some vs => ⟨DType.float, vs⟩
  | none => col

/-- The final cast loop: try to cast every remaining Utf8 column. -/
def castFrame (X : PFrame) : PFrame :=
  mapCols (fun _ col => if col.dtype = DType.utf8 then castCol col else col) X

/-- Embedding of `preprocess_features`. -/
def preprocess_features (df : PFrame) (feature_columns : List String)
    (target_column : String) (config : PConfig) :
    Except PErr (PFrame × List Val × Artifacts) :=
  if ((feature_columns ++ [target_column]).filter (fun c => !hasColF df c)) ≠ [] then
    .error .dataProcessing
  else
    let step := missingStep (selectF df feature_columns)
      (getPCol df target_column).vals config
    let cats := (step.1.filter (fun e => isCatD e.2.dtype)).map Prod.fst
    let er := encodeLoop step.1 cats
    .ok (castFrame er.1, step.2, ⟨if cats.isEmpty then none else some er.2⟩)

/-- Embedding of `apply_preprocessing`. -/
def apply_preprocessing (df : PFrame) (feature_columns : List String)
    (artifacts : Artifacts) : Except PErr PFrame :=
  if (feature_columns.filter (fun c => !hasColF df c)) ≠ [] then
    .error .dataProcessing
  else
    .ok (castFrame (applyMaps (selectF df feature_columns)
      (artifacts.category_maps.getD [])))

/-- The fitting frame minus the rows fit dropped (identical to the input
when the drop pass found no nulls and left the frame untouched). -/
def droppedFrame (df : PFrame) (fcs : List String) : PFrame :=
  if (nullMask (selectF df fcs)).any (fun b => b) then
    mapCols (fun _ col =>
      ⟨col.dtype, maskFilter (nullMask (selectF df fcs)) col.vals⟩) df
  else df

/-! ### Frame and association-list lemmas -/

theorem names_mapCols (f : String → PCol → PCol) (X : PFrame) :
    (mapCols f X).map Prod.fst = X.map Prod.fst := by
  unfold mapCols
  rw [List.map_map]
  rfl

theorem lookup_mapCols (f : String → PCol → PCol) (X : PFrame) (c : String) :
    (mapCols f X).lookup c = (X.lookup c).map (f c) := by
  induction X with
  | nil => rfl
  | cons e X ih =>
    unfold mapCols at *
    simp only [List.map_cons, List.lookup]
    by_cases h : c = e.1
    · rw [show (c == e.1) = true from beq_iff_eq.mpr h]
      simp [h]
    · rw [show (c == e.1) = false from beq_eq_false_iff_ne.mpr h]
      exact ih

theorem hasColF_mapCols (f : String → PCol → PCol) (X : PFrame) (c : String) :
    hasColF (mapCols f X) c = hasColF X c := by
  unfold hasColF
  rw [names_mapCols]

theorem lookup_isSome_iff_hasColF (X : PFrame) (c : String) :
    (X.lookup c).isSome = hasColF X c := by
  induction X with
  | nil => rfl
  | cons e X ih =>
    unfold hasColF at *
    by_cases h : c = e.1
    · subst h
      simp [List.lookup]
    · simp only [List.lookup, List.map_cons, List.contains_cons]
      rw [show (c == e.1) = false from beq_eq_false_iff_ne.mpr h]
      simpa using ih


theorem getPCol_mapCols (f : String → PCol → PCol) (X : PFrame) (c : String)
    (h : hasColF X c = true) : getPCol (mapCols f X) c = f c (getPCol X c) := by
  unfold getPCol
  rw [lookup_mapCols]
  rcases hl : X.lookup c with _ | col
  · rw [← lookup_isSome_iff_hasColF, hl] at h
    exact absurd h (by simp)
  · simp

theorem getPCol_mapCols_u (g : PCol → PCol) (X : PFrame) (c : String)
    (hdef : g ⟨DType.float, []⟩ = ⟨DType.float, []⟩) :
    getPCol (mapCols (fun _ col => g col) X) c = g (getPCol X c) := by
  unfold getPCol
  rw [lookup_mapCols]
  rcases hl : X.lookup c with _ | col
  · simpa using hdef.symm
  · simp

theorem getPCol_selectF_mem (df : PFrame) (fcs : List String) (c : String) (h : c ∈ fcs) :
    getPCol (selectF df fcs) c = getPCol df c := by
  induction fcs with
  | nil => cases h
  | cons c0 fcs ih =>
    unfold selectF getPCol at *
    simp only [List.map_cons, List.lookup]
    by_cases hc : c = c0
    · rw [show (c == c0) = true from beq_iff_eq.mpr hc]
      simp [hc]
    · rw [show (c == c0) = false from beq_eq_false_iff_ne.mpr hc]
      exact ih ((List.mem_cons.mp h).resolve_left hc)

theorem names_selectF (df : PFrame) (fcs : List String) :
    (selectF df fcs).map Prod.fst = fcs := by
  unfold selectF
  rw [List.map_map]
  exact List.map_id'' (fun c => rfl) fcs

theorem hasColF_selectF (df : PFrame) (fcs : List String) (c : String) :
    hasColF (selectF df fcs) c = fcs.contains c := by
  unfold hasColF
  rw [names_selectF]

theorem getPCol_withCol_self (X : PFrame) (c : String) (ncol : PCol)
    (h : hasColF X c = true) : getPCol (withCol X c ncol) c = ncol := by
  unfold withCol
  rw [getPCol_mapCols _ _ _ h, if_pos rfl]

theorem getPCol_withCol_ne (X : PFrame) (c c0 : String) (ncol : PCol) (h : c ≠ c0) :
    getPCol (withCol X c0 ncol) c = getPCol X c := by
  unfold withCol getPCol
  rw [lookup_mapCols]
  rcases hl : X.lookup c with - | col
  · simp
  · simp [h]

theorem hasColF_withCol (X : PFrame) (c c0 : String) (ncol : PCol) :
    hasColF (withCol X c0 ncol) c = hasColF X c :=
  hasColF_mapCols _ _ _

/-- Association-list lookup finds the recorded value when keys are distinct. -/
theorem lookup_of_mem_nodup_keys {β : Type} [DecidableEq β] (l : List (Val × β)) (v : Val)
    (i : β) (hnd : (l.map Prod.fst).Nodup) (hmem : (v, i) ∈ l) : l.lookup v = some i := by
  induction l with
  | nil => cases hmem
  | cons e l ih =>
    simp only [List.map_cons, List.nodup_cons] at hnd
    rcases List.mem_cons.mp hmem with he | hm
    · subst he
      simp [List.lookup]
    · simp only [List.lookup]
      by_cases hv : v = e.1
      · subst hv
        exact absurd (List.mem_map.mpr ⟨(e.1, i), hm, rfl⟩) hnd.1
      · rw [show (v == e.1) = false from beq_eq_false_iff_ne.mpr hv]
        exact ih hnd.2 hm

/-- Association-list lookup misses when the key is absent. -/
theorem lookup_eq_none_of_not_mem_keys {β : Type} (l : List (Val × β)) (v : Val)
    (h : v ∉ l.map Prod.fst) : l.lookup v = none := by
  induction l with
  | nil => rfl
  | cons e l ih =>
    simp only [List.map_cons, List.mem_cons, not_or] at h
    simp only [List.lookup]
    rw [show (v == e.1) = false from beq_eq_false_iff_ne.mpr h.1]
    exact ih h.2

/-! ### Behaviour of the encode and replay loops -/

/-- Replaying the maps recorded by the fitting loop, from the same starting
frame, rebuilds exactly the frame the fitting loop produced. -/
theorem applyMaps_replay (cs : List String) :
    ∀ X : PFrame, (∀ c ∈ cs, hasColF X c = true) →
      applyMaps X (encodeLoop X cs).2 = (encodeLoop X cs).1 := by
  induction cs with
  | nil => intro X _; rfl
  | cons c cs ih =>
    intro X h
    simp only [encodeLoop, applyMaps]
    rw [if_pos (h c (List.mem_cons_self c cs))]
    apply ih
    intro c2 hc2
    rw [hasColF_withCol]
    exact h c2 (List.mem_cons_of_mem c hc2)

/-- A column not named by the loop is left untouched by the fitting loop. -/
theorem getPCol_encodeLoop_not_mem (cs : List String) :
    ∀ (X : PFrame) (c : String), c ∉ cs →
      getPCol (encodeLoop X cs).1 c = getPCol X c := by
  induction cs with
  | nil => intro X c _; rfl
  | cons c0 cs ih =>
    intro X c hc
    simp only [List.mem_cons, not_or] at hc
    simp only [encodeLoop]
    rw [ih _ _ hc.2, getPCol_withCol_ne _ _ _ _ hc.1]

/-- With distinct column names, the recorded maps are exactly the per-column
category maps of the starting frame. -/
theorem encodeLoop_maps (cs : List String) :
    ∀ X : PFrame, cs.Nodup →
      (encodeLoop X cs).2 = cs.map (fun c => (c, catMapOf (getPCol X c).vals)) := by
  induction cs with
  | nil => intro X _; rfl
  | cons c cs ih =>
    intro X hnd
    rw [List.nodup_cons] at hnd
    simp only [encodeLoop, List.map_cons]
    rw [ih _ hnd.2]
    refine congrArg _ (List.map_congr_left ?_)
    intro c2 hc2
    rw [getPCol_withCol_ne]
    intro he
    exact hnd.1 (he ▸ hc2)

/-- The replay loop leaves a column alone when no stored map names it. -/
theorem getPCol_applyMaps_not_mem (ms : List (String × CatMap)) :
    ∀ (X : PFrame) (c : String), c ∉ ms.map Prod.fst →
      getPCol (applyMaps X ms) c = getPCol X c := by
  induction ms with
  | nil => intro X c _; rfl
  | cons e ms ih =>
    intro X c hc
    simp only [List.map_cons, List.mem_cons, not_or] at hc
    rcases e with ⟨c0, m⟩
    simp only [applyMaps]
    rw [ih]
    · split
      · exact getPCol_withCol_ne _ _ _ _ hc.1
      · rfl
    · exact hc.2

/-- The replay loop encodes a present column with its stored map, provided
the stored maps carry distinct column names. -/
theorem getPCol_applyMaps_mem (ms : List (String × CatMap)) :
    ∀ (X : PFrame) (c : String) (m : CatMap), (ms.map Prod.fst).Nodup →
      (c, m) ∈ ms → hasColF X c = true →
      getPCol (applyMaps X ms) c = encodeCol m (getPCol X c) := by
  induction ms with
  | nil => intro X c m _ hm _; cases hm
  | cons e ms ih =>
    intro X c m hnd hm hc
    simp only [List.map_cons, List.nodup_cons] at hnd
    rcases e with ⟨c0, m0⟩
    simp only [applyMaps]
    rcases List.mem_cons.mp hm with he | hm2
    · injection he with he1 he2
      subst he1; subst he2
      rw [if_pos hc]
      rw [getPCol_applyMaps_not_mem ms _ _ hnd.1]
      exact getPCol_withCol_self _ _ _ hc
    · have hne : c ≠ c0 := by
        intro he
        exact hnd.1 (he ▸ List.mem_map.mpr ⟨(c, m), hm2, rfl⟩)
      have hget : ∀ Y : PFrame, Y = (if hasColF X c0 then
          withCol X c0 (encodeCol m0 (getPCol X c0)) else X) →
          getPCol Y c = getPCol X c ∧ hasColF Y c = hasColF X c := by
        intro Y hy
        subst hy
        split
        · exact ⟨getPCol_withCol_ne _ _ _ _ hne, hasColF_withCol _ _ _ _⟩
        · exact ⟨rfl, rfl⟩
      obtain ⟨hg, hh⟩ := hget _ rfl
      rw [ih _ _ _ hnd.2 hm2 (by rw [hh]; exact hc), hg]

/-- A non-Utf8 column passes through the final cast loop unchanged. -/
theorem getPCol_castFrame (X : PFrame) (c : String)
    (h : (getPCol X c).dtype ≠ DType.utf8) :
    getPCol (castFrame X) c = getPCol X c := by
  unfold castFrame getPCol at *
  rw [lookup_mapCols]
  rcases hl : X.lookup c with _ | col
  · simp
  · rw [hl] at h
    simp only [Option.getD_some] at h
    simp [h]

/-! ### Category key and category map properties -/

theorem catKeys_sorted (vs : List Val) :
    List.Pairwise (fun a b => vle a b = true) (catKeys vs) := by
  haveI : IsTotal Val (fun a b => vle a b = true) := ⟨fun x y => vle_total x y⟩
  haveI : IsTrans Val (fun a b => vle a b = true) := ⟨fun _ _ _ h1 h2 => vle_trans h1 h2⟩
  exact List.sorted_insertionSort _ _

theorem catKeys_nodup (vs : List Val) : (catKeys vs).Nodup :=
  (List.perm_insertionSort _ _).nodup_iff.mpr (List.nodup_dedup _)

theorem mem_catKeys (vs : List Val) (v : Val) :
    v ∈ catKeys vs ↔ v ≠ Val.null ∧ v ∈ vs := by
  unfold catKeys
  rw [List.mem_insertionSort, List.mem_dedup, List.mem_filter]
  simp only [Bool.not_eq_eq_eq_not, Bool.not_true, beq_eq_false_iff_ne]
  exact ⟨fun h => ⟨h.2, h.1⟩, fun h => ⟨h.2, h.1⟩⟩

theorem keys_catMapOf (vs : List Val) : (catMapOf vs).map Prod.fst = catKeys vs := by
  unfold catMapOf
  rw [List.map_map]
  have : (Prod.fst ∘ fun p : Nat × Val => (p.2, (p.1 : Int))) = Prod.snd := rfl
  rw [this, List.enum_map_snd]

theorem mem_catMapOf (vs : List Val) (v : Val) (code : Int) :
    (v, code) ∈ catMapOf vs ↔ ∃ i : Nat, code = (i : Int) ∧ (catKeys vs)[i]? = some v := by
  unfold catMapOf
  rw [List.mem_map]
  constructor
  · rintro ⟨⟨i, w⟩, hmem, heq⟩
    injection heq with h1 h2
    subst h1
    exact ⟨i, h2.symm, List.mk_mem_enum_iff_getElem?.mp hmem⟩
  · rintro ⟨i, hcode, hget⟩
    exact ⟨(i, v), List.mk_mem_enum_iff_getElem?.mpr hget, by rw [hcode]⟩

theorem encodeVal_mem (vs : List Val) (v : Val) (code : Int)
    (h : (v, code) ∈ catMapOf vs) : encodeVal (catMapOf vs) v = code := by
  unfold encodeVal
  rw [lookup_of_mem_nodup_keys _ v code _ h]
  · rfl
  · rw [keys_catMapOf]
    exact catKeys_nodup vs

theorem encodeVal_not_mem (vs : List Val) (v : Val) (h : v ∉ catKeys vs) :
    encodeVal (catMapOf vs) v = -1 := by
  unfold encodeVal
  rw [lookup_eq_none_of_not_mem_keys]
  · rfl
  · rw [keys_catMapOf]
    exact h

theorem encodeVal_null (vs : List Val) : encodeVal (catMapOf vs) Val.null = -1 :=
  encodeVal_not_mem vs Val.null (fun h => ((mem_catKeys vs Val.null).mp h).1 rfl)

/-! ### Characterizations of fit and apply -/

/-- Inversion of a successful `preprocess_features` call. -/
theorem preprocess_features_ok {df : PFrame} {fcs : List String} {tgt : String}
    {cfg : PConfig} {X : PFrame} {y : List Val} {arts : Artifacts}
    (hfit : preprocess_features df fcs tgt cfg = .ok (X, y, arts)) :
    ((fcs ++ [tgt]).filter (fun c => !hasColF df c)) = [] ∧
    X = castFrame (encodeLoop (missingStep (selectF df fcs) (getPCol df tgt).vals cfg).1
        (((missingStep (selectF df fcs) (getPCol df tgt).vals cfg).1.filter
          (fun e => isCatD e.2.dtype)).map Prod.fst)).1 ∧
    y = (missingStep (selectF df fcs) (getPCol df tgt).vals cfg).2 ∧
    arts = ⟨if (((missingStep (selectF df fcs) (getPCol df tgt).vals cfg).1.filter
          (fun e => isCatD e.2.dtype)).map Prod.fst).isEmpty = true then none
      else some (encodeLoop (missingStep (selectF df fcs) (getPCol df tgt).vals cfg).1
        (((missingStep (selectF df fcs) (getPCol df tgt).vals cfg).1.filter
          (fun e => isCatD e.2.dtype)).map Prod.fst)).2⟩ := by
  by_cases hg : ((fcs ++ [tgt]).filter (fun c => !hasColF df c)) = []
  · simp only [preprocess_features] at hfit
    rw [if_neg (fun hne => hne hg)] at hfit
    simp only [Except.ok.injEq, Prod.mk.injEq] at hfit
    exact ⟨hg, hfit.1.symm, hfit.2.1.symm, hfit.2.2.symm⟩
  · simp only [preprocess_features] at hfit
    rw [if_pos hg] at hfit
    exact absurd hfit (by simp)

/-- When every feature column is present, `apply_preprocessing` succeeds and
is the cast of the category-map replay over the selected columns. -/
theorem apply_preprocessing_ok (df : PFrame) (fcs : List String) (arts : Artifacts)
    (h : ∀ c ∈ fcs, hasColF df c = true) :
    apply_preprocessing df fcs arts =
      .ok (castFrame (applyMaps (selectF df fcs) (arts.category_maps.getD []))) := by
  unfold apply_preprocessing
  rw [if_neg (fun hne => hne (List.filter_eq_nil.mpr (fun c hc => by
    rw [h c hc]
    simp)))]

theorem selectF_mapCols_mask (df : PFrame) (fcs : List String) (mask : List Bool) :
    selectF (mapCols (fun _ col => ⟨col.dtype, maskFilter mask col.vals⟩) df) fcs =
      mapCols (fun _ col => ⟨col.dtype, maskFilter mask col.vals⟩) (selectF df fcs) := by
  unfold selectF mapCols
  rw [List.map_map]
  apply List.map_congr_left
  intro c _
  exact congrArg _ (getPCol_mapCols_u (fun col => ⟨col.dtype, maskFilter mask col.vals⟩)
    df c rfl)

/-- Selecting the feature columns of the dropped frame yields exactly the
frame the fit pass produced after its missing-value step (drop strategy). -/
theorem selectF_droppedFrame (df : PFrame) (fcs : List String) (tgt : String)
    (cfg : PConfig) (hms : cfg.missing_strategy.getD "drop" = "drop") :
    selectF (droppedFrame df fcs) fcs =
      (missingStep (selectF df fcs) (getPCol df tgt).vals cfg).1 := by
  unfold droppedFrame missingStep
  rw [hms, if_pos rfl]
  by_cases hmask : (nullMask (selectF df fcs)).any (fun b => b) = true
  · rw [if_pos hmask, if_pos hmask]
    exact selectF_mapCols_mask df fcs (nullMask (selectF df fcs))
  · rw [if_neg hmask, if_neg hmask]

/-- C8 (amended): with the default `drop` missing-value strategy, replaying
the fitted artifacts on the fitting frame minus the dropped rows reproduces
exactly the encoded feature frame the fit produced. -/
theorem c8_fit_apply_roundtrip_drop (df : PFrame) (fcs : List String) (tgt : String)
    (cfg : PConfig) (hms : cfg.missing_strategy.getD "drop" = "drop")
    (X : PFrame) (y : List Val) (arts : Artifacts)
    (hfit : preprocess_features df fcs tgt cfg = .ok (X, y, arts)) :
    apply_preprocessing (droppedFrame df fcs) fcs arts = Except.ok X := by
  obtain ⟨hg, hX, hy, harts⟩ := preprocess_features_ok hfit
  have hpres : ∀ c ∈ fcs, hasColF df c = true := by
    intro c hc
    have h2 := List.filter_eq_nil.mp hg c (List.mem_append.mpr (Or.inl hc))
    simpa using h2
  have hpres2 : ∀ c ∈ fcs, hasColF (droppedFrame df fcs) c = true := by
    intro c hc
    unfold droppedFrame
    split
    · rw [hasColF_mapCols]
      exact hpres c hc
    · exact hpres c hc
  rw [apply_preprocessing_ok _ _ _ hpres2]
  rw [selectF_droppedFrame df fcs tgt cfg hms]
  have hcats : ∀ c ∈ (((missingStep (selectF df fcs) (getPCol df tgt).vals cfg).1.filter
      (fun e => isCatD e.2.dtype)).map Prod.fst),
      hasColF (missingStep (selectF df fcs) (getPCol df tgt).vals cfg).1 c = true := by
    intro c hc
    obtain ⟨e, he, rfl⟩ := List.mem_map.mp hc
    unfold hasColF
    exact List.elem_iff.mpr (List.mem_map.mpr ⟨e, List.mem_of_mem_filter he, rfl⟩)
  by_cases hemp : (((missingStep (selectF df fcs) (getPCol df tgt).vals cfg).1.filter
      (fun e => isCatD e.2.dtype)).map Prod.fst).isEmpty = true
  · rw [hemp, if_pos rfl] at harts
    subst harts
    have hnil := List.isEmpty_iff.mp hemp
    rw [hnil] at hX
    simp only [Option.getD_none]
    rw [hX]
    rfl
  · rw [if_neg hemp] at harts
    subst harts
    simp only [Option.getD_some]
    rw [applyMaps_replay _ _ hcats, hX]

/-- In a frame with distinct column names, every entry is the column that
lookup finds for its name. -/
theorem mem_eq_getPCol_of_nodup (X : PFrame) (hnd : (X.map Prod.fst).Nodup)
    {e : String × PCol} (he : e ∈ X) : e.2 = getPCol X e.1 := by
  induction X with
  | nil => cases he
  | cons e0 X ih =>
    simp only [List.map_cons, List.nodup_cons] at hnd
    rcases List.mem_cons.mp he with h | h
    · subst h
      unfold getPCol
      simp [List.lookup]
    · have hne : e.1 ≠ e0.1 := by
        intro hh
        exact hnd.1 (hh ▸ List.mem_map.mpr ⟨e, h, rfl⟩)
      unfold getPCol at *
      simp only [List.lookup]
      rw [show (e.1 == e0.1) = false from beq_eq_false_iff_ne.mpr hne]
      exact ih hnd.2 h

theorem dtype_fillMeanCol (col : PCol) : (fillMeanCol col).dtype = col.dtype := by
  unfold fillMeanCol
  rcases colMean col.vals with _ | m <;> rfl

theorem isCatD_of_isNumericD {d : DType} (h : isNumericD d = true) : isCatD d = false := by
  cases d <;> simp_all [isNumericD, isCatD]

/-- Unfolding of the missing-value step under the `fill_mean` strategy. -/
theorem missingStep_fill_mean (X0 : PFrame) (y0 : List Val) (cfg : PConfig)
    (hms : cfg.missing_strategy.getD "drop" = "fill_mean") :
    missingStep X0 y0 cfg =
      (mapCols (fun _ col => if isNumericD col.dtype then fillMeanCol col else col) X0, y0) := by
  unfold missingStep
  rw [hms, if_neg (by decide), if_pos rfl]

/-- Inversion of a successful `apply_preprocessing` call. -/
theorem apply_preprocessing_ok_inv {df : PFrame} {fcs : List String} {arts : Artifacts}
    {X2 : PFrame} (h : apply_preprocessing df fcs arts = .ok X2) :
    (∀ c ∈ fcs, hasColF df c = true) ∧
    X2 = castFrame (applyMaps (selectF df fcs) (arts.category_maps.getD [])) := by
  by_cases hg : (fcs.filter (fun c => !hasColF df c)) = []
  · constructor
    · intro c hc
      have h2 := List.filter_eq_nil_iff.mp hg c hc
      simpa using h2
    · unfold apply_preprocessing at h
      rw [if_neg (fun hne => hne hg)] at h
      simpa using h.symm
  · unfold apply_preprocessing at h
    rw [if_pos hg] at h
    exact absurd h (by simp)

/-- C7 (amended): under `fill_mean`, fit replaces nulls of numeric feature
columns with the column mean computed over the fitting data; but that mean
is not stored in the returned artifacts (which, with all-numeric features,
are empty), and apply performs no filling at all: nulls of non-Utf8 columns
pass through prediction-time preprocessing unchanged. -/
theorem c7_fill_mean_not_replayed (df : PFrame) (fcs : List String) (tgt : String)
    (cfg : PConfig) (hnd : fcs.Nodup)
    (hms : cfg.missing_strategy.getD "drop" = "fill_mean")
    (hnum : ∀ c ∈ fcs, isNumericD (getPCol df c).dtype = true)
    (X : PFrame) (y : List Val) (arts : Artifacts)
    (hfit : preprocess_features df fcs tgt cfg = .ok (X, y, arts)) :
    (∀ c ∈ fcs, getPCol X c = ⟨(getPCol df c).dtype,
        match colMean (getPCol df c).vals with
        | none => (getPCol df c).vals
        | some m => (getPCol df c).vals.map
            (fun v => if v = Val.null then Val.num m else v)⟩) ∧
    arts = ⟨none⟩ ∧
    (∀ (vs : List Val) (m : ℚ), colMean vs = some m →
        numsOf vs ≠ [] ∧ m * ((numsOf vs).length : ℚ) = (numsOf vs).sum) ∧
    (∀ (df2 X2 : PFrame), apply_preprocessing df2 fcs ⟨none⟩ = .ok X2 →
        ∀ c ∈ fcs, (getPCol df2 c).dtype ≠ DType.utf8 → getPCol X2 c = getPCol df2 c) := by
  obtain ⟨hg, hX, hy, harts⟩ := preprocess_features_ok hfit
  rw [missingStep_fill_mean _ _ _ hms] at hX harts
  have hX1get : ∀ c ∈ fcs,
      getPCol (mapCols (fun _ col => if isNumericD col.dtype then fillMeanCol col else col)
        (selectF df fcs)) c = fillMeanCol (getPCol df c) := by
    intro c hc
    rw [getPCol_mapCols_u (fun col => if isNumericD col.dtype then fillMeanCol col else col)
      _ _ rfl]
    rw [getPCol_selectF_mem df fcs c hc, if_pos (hnum c hc)]
  have hnodup1 : ((mapCols (fun _ col => if isNumericD col.dtype then fillMeanCol col else col)
      (selectF df fcs)).map Prod.fst).Nodup := by
    rw [names_mapCols, names_selectF]
    exact hnd
  have hcats : ((mapCols (fun _ col => if isNumericD col.dtype then fillMeanCol col else col)
      (selectF df fcs)).filter (fun e => isCatD e.2.dtype)) = [] := by
    apply List.filter_eq_nil_iff.mpr
    intro e he
    have hval := mem_eq_getPCol_of_nodup _ hnodup1 he
    have hmem : e.1 ∈ fcs := by
      have : e.1 ∈ (mapCols (fun _ col => if isNumericD col.dtype then fillMeanCol col else col)
          (selectF df fcs)).map Prod.fst := List.mem_map.mpr ⟨e, he, rfl⟩
      rw [names_mapCols, names_selectF] at this
      exact this
    rw [hval, hX1get e.1 hmem]
    have hdt : (fillMeanCol (getPCol df e.1)).dtype = (getPCol df e.1).dtype :=
      dtype_fillMeanCol _
    simp only [hdt]
    rw [isCatD_of_isNumericD (hnum e.1 hmem)]
    simp
  rw [hcats] at hX harts
  simp only [List.map_nil, List.isEmpty_nil, if_pos rfl] at harts
  simp only [List.map_nil] at hX
  refine ⟨?_, harts, ?_, ?_⟩
  · intro c hc
    have hc8 : getPCol X c = fillMeanCol (getPCol df c) := by
      rw [hX]
      have henc : (encodeLoop (mapCols
          (fun _ col => if isNumericD col.dtype then fillMeanCol col else col)
          (selectF df fcs)) []).1 = mapCols
          (fun _ col => if isNumericD col.dtype then fillMeanCol col else col)
          (selectF df fcs) := rfl
      rw [henc, getPCol_castFrame]
      · exact hX1get c hc
      · rw [hX1get c hc, dtype_fillMeanCol]
        intro hut
        have := hnum c hc
        rw [hut] at this
        exact absurd this (by simp [isNumericD])
    rw [hc8]
    unfold fillMeanCol
    rcases colMean (getPCol df c).vals with _ | m
    · rfl
    · rfl
  · intro vs m hcm
    unfold colMean at hcm
    by_cases hz : (numsOf vs).length = 0
    · rw [if_pos hz] at hcm
      exact absurd hcm (by simp)
    · rw [if_neg hz] at hcm
      simp only [Option.some.injEq] at hcm
      have hne : numsOf vs ≠ [] := fun hnil => hz (by rw [hnil]; rfl)
      refine ⟨hne, ?_⟩
      rw [← hcm, qdivNat_eq, qsum_eq]
      have hlen : ((numsOf vs).length : ℚ) ≠ 0 := by
        exact_mod_cast hz
      rw [div_mul_cancel₀ _ hlen]
  · intro df2 X2 happly c hc hdt
    obtain ⟨hpres, hX2⟩ := apply_preprocessing_ok_inv happly
    rw [hX2]
    have happ : applyMaps (selectF df2 fcs) ((Artifacts.mk none).category_maps.getD []) =
        selectF df2 fcs := rfl
    rw [happ, getPCol_castFrame]
    · exact getPCol_selectF_mem df2 fcs c hc
    · rw [getPCol_selectF_mem df2 fcs c hc]
      exact hdt

/-- A present column name, paired with its looked-up column, is an entry. -/
theorem mem_getPCol_of_hasColF (X : PFrame) (c : String) (h : hasColF X c = true) :
    (c, getPCol X c) ∈ X := by
  induction X with
  | nil => exact absurd h (by simp [hasColF])
  | cons e X ih =>
    by_cases hc : c = e.1
    · subst hc
      unfold getPCol
      simp only [List.lookup, beq_self_eq_true, Option.getD_some]
      exact List.mem_cons_self e X
    · unfold hasColF at h
      simp only [List.map_cons, List.contains_cons] at h
      rw [show (c == e.1) = false from beq_eq_false_iff_ne.mpr hc] at h
      simp only [Bool.false_or] at h
      unfold getPCol
      simp only [List.lookup]
      rw [show (c == e.1) = false from beq_eq_false_iff_ne.mpr hc]
      exact List.mem_cons_of_mem e (ih h)

/-- C6: fit builds per-column category maps with 0-based codes in sorted
order of the deduplicated non-null fitting values, stores them in
`artifacts.category_maps`, and apply replays the stored maps verbatim:
mapped values get their codes, anything else (nulls included) becomes -1,
and apply succeeds whenever the feature columns exist. -/
theorem c6_categorical_encoding :
    (∀ vs : List Val,
      List.Pairwise (fun a b => vle a b = true) (catKeys vs) ∧
      (catKeys vs).Nodup ∧
      (∀ v : Val, v ∈ catKeys vs ↔ v ≠ Val.null ∧ v ∈ vs) ∧
      (∀ (v : Val) (code : Int),
        (v, code) ∈ catMapOf vs ↔ ∃ i : Nat, code = (i : Int) ∧ (catKeys vs)[i]? = some v)) ∧
    (∀ (vs : List Val) (v : Val) (code : Int),
      (v, code) ∈ catMapOf vs → encodeVal (catMapOf vs) v = code) ∧
    (∀ (vs : List Val) (v : Val), v ∉ catKeys vs → encodeVal (catMapOf vs) v = -1) ∧
    (∀ vs : List Val, encodeVal (catMapOf vs) Val.null = -1) ∧
    (∀ (df : PFrame) (fcs : List String) (tgt : String) (cfg : PConfig)
        (X : PFrame) (y : List Val) (arts : Artifacts), fcs.Nodup →
      preprocess_features df fcs tgt cfg = .ok (X, y, arts) →
      ∀ c ∈ fcs, isCatD (getPCol (missingStep (selectF df fcs)
          (getPCol df tgt).vals cfg).1 c).dtype = true →
        (c, catMapOf (getPCol (missingStep (selectF df fcs)
          (getPCol df tgt).vals cfg).1 c).vals) ∈ arts.category_maps.getD []) ∧
    (∀ (df : PFrame) (fcs : List String) (tgt : String) (cfg : PConfig)
        (X : PFrame) (y : List Val) (arts : Artifacts), fcs.Nodup →
      preprocess_features df fcs tgt cfg = .ok (X, y, arts) →
      ∀ (df2 X2 : PFrame), apply_preprocessing df2 fcs arts = .ok X2 →
      ∀ (c : String) (m : CatMap), (c, m) ∈ arts.category_maps.getD [] →
        (getPCol X2 c).vals = (getPCol df2 c).vals.map
          (fun v => Val.num (qofInt (encodeVal m v)))) ∧
    (∀ (df2 : PFrame) (fcs : List String) (arts : Artifacts),
      (∀ c ∈ fcs, hasColF df2 c = true) →
      ∃ X2, apply_preprocessing df2 fcs arts = .ok X2) := by
  have hX1names : ∀ (df : PFrame) (fcs : List String) (y0 : List Val) (cfg : PConfig),
      (missingStep (selectF df fcs) y0 cfg).1.map Prod.fst = fcs := by
    intro df fcs y0 cfg
    unfold missingStep
    split
    · split
      · simp only []
        rw [names_mapCols, names_selectF]
      · exact names_selectF df fcs
    · split
      · simp only []
        rw [names_mapCols, names_selectF]
      · exact names_selectF df fcs
  have hcatsmem : ∀ (X1 : PFrame) (c : String), (X1.map Prod.fst).Nodup →
      hasColF X1 c = true → isCatD (getPCol X1 c).dtype = true →
      c ∈ (X1.filter (fun e => isCatD e.2.dtype)).map Prod.fst := by
    intro X1 c hnd hpres hcat
    exact List.mem_map.mpr ⟨(c, getPCol X1 c),
      List.mem_filter.mpr ⟨mem_getPCol_of_hasColF X1 c hpres, hcat⟩, rfl⟩
  refine ⟨?_, encodeVal_mem, encodeVal_not_mem, encodeVal_null, ?_, ?_, ?_⟩
  · intro vs
    exact ⟨catKeys_sorted vs, catKeys_nodup vs, mem_catKeys vs, mem_catMapOf vs⟩
  · -- storage
    intro df fcs tgt cfg X y arts hnd hfit c hc hcat
    obtain ⟨hg, hX, hy, harts⟩ := preprocess_features_ok hfit
    have hnames := hX1names df fcs (getPCol df tgt).vals cfg
    have hnd1 : ((missingStep (selectF df fcs) (getPCol df tgt).vals cfg).1.map
        Prod.fst).Nodup := by rw [hnames]; exact hnd
    have hpres : hasColF (missingStep (selectF df fcs) (getPCol df tgt).vals cfg).1 c = true := by
      unfold hasColF
      rw [hnames]
      exact List.elem_iff.mpr hc
    have hmemcats := hcatsmem _ c hnd1 hpres hcat
    have hcatsnd : (((missingStep (selectF df fcs) (getPCol df tgt).vals cfg).1.filter
        (fun e => isCatD e.2.dtype)).map Prod.fst).Nodup := by
      have hsub : List.Sublist
          (((missingStep (selectF df fcs) (getPCol df tgt).vals cfg).1.filter
            (fun e => isCatD e.2.dtype)).map Prod.fst)
          ((missingStep (selectF df fcs) (getPCol df tgt).vals cfg).1.map Prod.fst) :=
        (List.filter_sublist _).map Prod.fst
      exact hnd1.sublist hsub
    by_cases hemp : ((((missingStep (selectF df fcs) (getPCol df tgt).vals cfg).1.filter
        (fun e => isCatD e.2.dtype)).map Prod.fst)).isEmpty = true
    · rw [List.isEmpty_iff.mp hemp] at hmemcats
      cases hmemcats
    · rw [if_neg hemp] at harts
      subst harts
      simp only [Option.getD_some]
      rw [encodeLoop_maps _ _ hcatsnd]
      exact List.mem_map.mpr ⟨c, hmemcats, rfl⟩
  · -- replay
    intro df fcs tgt cfg X y arts hnd hfit df2 X2 happly c m hm
    obtain ⟨hg, hX, hy, harts⟩ := preprocess_features_ok hfit
    obtain ⟨hpres2, hX2⟩ := apply_preprocessing_ok_inv happly
    have hnames := hX1names df fcs (getPCol df tgt).vals cfg
    have hnd1 : ((missingStep (selectF df fcs) (getPCol df tgt).vals cfg).1.map
        Prod.fst).Nodup := by rw [hnames]; exact hnd
    have hcatsnd : (((missingStep (selectF df fcs) (getPCol df tgt).vals cfg).1.filter
        (fun e => isCatD e.2.dtype)).map Prod.fst).Nodup := by
      have hsub : List.Sublist
          (((missingStep (selectF df fcs) (getPCol df tgt).vals cfg).1.filter
            (fun e => isCatD e.2.dtype)).map Prod.fst)
          ((missingStep (selectF df fcs) (getPCol df tgt).vals cfg).1.map Prod.fst) :=
        (List.filter_sublist _).map Prod.fst
      exact hnd1.sublist hsub
    by_cases hemp : ((((missingStep (selectF df fcs) (getPCol df tgt).vals cfg).1.filter
        (fun e => isCatD e.2.dtype)).map Prod.fst)).isEmpty = true
    · rw [if_pos hemp] at harts
      subst harts
      simp only [Option.getD_none] at hm
      cases hm
    · rw [if_neg hemp] at harts
      subst harts
      simp only [Option.getD_some] at hm ⊢
      rw [encodeLoop_maps _ _ hcatsnd] at hm
      obtain ⟨c0, hc0, heq⟩ := List.mem_map.mp hm
      injection heq with heq1 heq2
      subst heq1
      have hcfcs : c0 ∈ fcs := by
        rw [← hnames]
        obtain ⟨e, he, rfl⟩ := List.mem_map.mp hc0
        exact List.mem_map.mpr ⟨e, List.mem_of_mem_filter he, rfl⟩
      have hkeysnd : (((((missingStep (selectF df fcs) (getPCol df tgt).vals cfg).1.filter
          (fun e => isCatD e.2.dtype)).map Prod.fst).map
            (fun c => (c, catMapOf (getPCol (missingStep (selectF df fcs)
              (getPCol df tgt).vals cfg).1 c).vals))).map Prod.fst).Nodup := by
        rw [List.map_map]
        have : (Prod.fst ∘ fun c => (c, catMapOf (getPCol (missingStep (selectF df fcs)
            (getPCol df tgt).vals cfg).1 c).vals)) = id := rfl
        rw [this, List.map_id]
        exact hcatsnd
      have hpresS : hasColF (selectF df2 fcs) c0 = true := by
        rw [hasColF_selectF]
        exact List.elem_iff.mpr hcfcs
      simp only [Option.getD_some] at hX2
      rw [hX2]
      rw [← encodeLoop_maps _ _ hcatsnd] at hkeysnd hm
      have happc := getPCol_applyMaps_mem _ (selectF df2 fcs) c0 _ hkeysnd hm hpresS
      rw [getPCol_castFrame _ _ (by rw [happc]; simp [encodeCol]), happc]
      unfold encodeCol
      rw [getPCol_selectF_mem df2 fcs c0 hcfcs]
  · -- apply never raises
    intro df2 fcs arts hpres
    exact ⟨_, apply_preprocessing_ok df2 fcs arts hpres⟩

/-- Witness for C6: on fitting values [b, null, a, b] the sorted dedup keys
are [a, b]; the seen value b gets code 1, the unseen z and null get -1, and
apply succeeds on a frame holding only unseen values. -/
theorem c6_categorical_encoding_witness :
    encodeVal (catMapOf [Val.str "b", Val.null, Val.str "a", Val.str "b"]) (Val.str "b") = 1 ∧
    encodeVal (catMapOf [Val.str "b", Val.null, Val.str "a", Val.str "b"]) (Val.str "z") = -1 ∧
    encodeVal (catMapOf [Val.str "b", Val.null, Val.str "a", Val.str "b"]) Val.null = -1 ∧
    ∃ X2, apply_preprocessing [("s", ⟨DType.utf8, [Val.str "z", Val.null]⟩)] ["s"]
      ⟨some [("s", catMapOf [Val.str "b", Val.null, Val.str "a", Val.str "b"])]⟩ =
      Except.ok X2 := by
  obtain ⟨hkeys, hmem, hnot, hnull, hstore, hreplay, hnoraise⟩ := c6_categorical_encoding
  refine ⟨?_, ?_, ?_, ?_⟩
  · exact hmem _ _ 1 (by decide)
  · exact hnot _ _ (by decide)
  · exact hnull _
  · exact hnoraise _ _ _ (by decide)

/-- C7 counterexample: under `fill_mean` the fit fills the null with the
mean 3 of [2, 4], but the returned artifacts are empty (no mean stored) and
apply leaves the very same null in place instead of filling it. -/
theorem c7_counterexample_mean_not_stored :
    preprocess_features
        [("x", ⟨DType.float, [Val.num 2, Val.num 4, Val.null]⟩),
         ("y", ⟨DType.float, [Val.num 0, Val.num 0, Val.num 0]⟩)]
        ["x"] "y" ⟨some "fill_mean"⟩ =
      Except.ok ([("x", ⟨DType.float, [Val.num 2, Val.num 4, Val.num 3]⟩)],
        [Val.num 0, Val.num 0, Val.num 0], ⟨none⟩) ∧
    apply_preprocessing
        [("x", ⟨DType.float, [Val.num 2, Val.num 4, Val.null]⟩),
         ("y", ⟨DType.float, [Val.num 0, Val.num 0, Val.num 0]⟩)]
        ["x"] ⟨none⟩ =
      Except.ok [("x", ⟨DType.float, [Val.num 2, Val.num 4, Val.null]⟩)] ∧
    ([("x", (⟨DType.float, [Val.num 2, Val.num 4, Val.null]⟩ : PCol))] : PFrame) ≠
      [("x", ⟨DType.float, [Val.num 2, Val.num 4, Val.num 3]⟩)] :=
  ⟨rfl, rfl, by decide⟩

/-- Witness for the amended C7: fit fills the mean, the artifacts are empty,
and apply passes the null through unchanged. -/
theorem c7_fill_mean_not_replayed_witness :
    getPCol [("x", (⟨DType.float, [Val.num 2, Val.num 4, Val.num 3]⟩ : PCol))] "x" =
      ⟨DType.float, [Val.num 2, Val.num 4, Val.num 3]⟩ ∧
    getPCol [("x", (⟨DType.float, [Val.num 2, Val.num 4, Val.null]⟩ : PCol))] "x" =
      getPCol [("x", (⟨DType.float, [Val.num 2, Val.num 4, Val.null]⟩ : PCol)),
        ("y", ⟨DType.float, [Val.num 0, Val.num 0, Val.num 0]⟩)] "x" := by
  obtain ⟨hfill, harts, hmean, happly⟩ := c7_fill_mean_not_replayed
    [("x", ⟨DType.float, [Val.num 2, Val.num 4, Val.null]⟩),
     ("y", ⟨DType.float, [Val.num 0, Val.num 0, Val.num 0]⟩)]
    ["x"] "y" ⟨some "fill_mean"⟩ (by decide) rfl (by decide)
    [("x", ⟨DType.float, [Val.num 2, Val.num 4, Val.num 3]⟩)]
    [Val.num 0, Val.num 0, Val.num 0] ⟨none⟩ rfl
  constructor
  · exact (hfill "x" (by decide)).trans (by rfl)
  · exact happly
      [("x", ⟨DType.float, [Val.num 2, Val.num 4, Val.null]⟩),
       ("y", ⟨DType.float, [Val.num 0, Val.num 0, Val.num 0]⟩)]
      [("x", ⟨DType.float, [Val.num 2, Val.num 4, Val.null]⟩)]
      rfl "x" (by decide) (by decide)

/-- C8 counterexample: under `fill_mean` (a legal config) the fit output
holds the filled mean while the replay of the artifacts on the unchanged
fitting frame (no rows were dropped) keeps the null: the round trip fails. -/
theorem c8_counterexample_fill_mean_roundtrip :
    preprocess_features
        [("u", ⟨DType.float, [Val.num 1, Val.num 3, Val.null]⟩),
         ("t", ⟨DType.float, [Val.num 0, Val.num 0, Val.num 0]⟩)]
        ["u"] "t" ⟨some "fill_mean"⟩ =
      Except.ok ([("u", ⟨DType.float, [Val.num 1, Val.num 3, Val.num 2]⟩)],
        [Val.num 0, Val.num 0, Val.num 0], ⟨none⟩) ∧
    apply_preprocessing
        [("u", ⟨DType.float, [Val.num 1, Val.num 3, Val.null]⟩),
         ("t", ⟨DType.float, [Val.num 0, Val.num 0, Val.num 0]⟩)]
        ["u"] ⟨none⟩ =
      Except.ok [("u", ⟨DType.float, [Val.num 1, Val.num 3, Val.null]⟩)] ∧
    ([("u", (⟨DType.float, [Val.num 1, Val.num 3, Val.null]⟩ : PCol))] : PFrame) ≠
      [("u", ⟨DType.float, [Val.num 1, Val.num 3, Val.num 2]⟩)] :=
  ⟨rfl, rfl, by decide⟩

/-- Witness for the amended C8: a drop-strategy fit with one dropped row and
one categorical column round-trips exactly. -/
theorem c8_fit_apply_roundtrip_drop_witness :
    preprocess_features
        [("x", ⟨DType.float, [Val.num 1, Val.null, Val.num 3]⟩),
         ("y", ⟨DType.float, [Val.num 10, Val.num 20, Val.num 30]⟩),
         ("s", ⟨DType.utf8, [Val.str "b", Val.str "a", Val.str "b"]⟩)]
        ["x", "s"] "y" ⟨none⟩ =
      Except.ok ([("x", ⟨DType.float, [Val.num 1, Val.num 3]⟩),
          ("s", ⟨DType.int, [Val.num 0, Val.num 0]⟩)],
        [Val.num 10, Val.num 30],
        ⟨some [("s", [(Val.str "b", 0)])]⟩) ∧
    apply_preprocessing
        (droppedFrame
          [("x", ⟨DType.float, [Val.num 1, Val.null, Val.num 3]⟩),
           ("y", ⟨DType.float, [Val.num 10, Val.num 20, Val.num 30]⟩),
           ("s", ⟨DType.utf8, [Val.str "b", Val.str "a", Val.str "b"]⟩)]
          ["x", "s"])
        ["x", "s"] ⟨some [("s", [(Val.str "b", 0)])]⟩ =
      Except.ok [("x", ⟨DType.float, [Val.num 1, Val.num 3]⟩),
        ("s", ⟨DType.int, [Val.num 0, Val.num 0]⟩)] := by
  constructor
  · rfl
  · exact c8_fit_apply_roundtrip_drop
      [("x", ⟨DType.float, [Val.num 1, Val.null, Val.num 3]⟩),
       ("y", ⟨DType.float, [Val.num 10, Val.num 20, Val.num 30]⟩),
       ("s", ⟨DType.utf8, [Val.str "b", Val.str "a", Val.str "b"]⟩)]
      ["x", "s"] "y" ⟨none⟩ rfl
      [("x", ⟨DType.float, [Val.num 1, Val.num 3]⟩),
       ("s", ⟨DType.int, [Val.num 0, Val.num 0]⟩)]
      [Val.num 10, Val.num 30]
      ⟨some [("s", [(Val.str "b", 0)])]⟩ (by rfl)

/-! ### Artifact I/O (src/app/services/training/artifact_io.py)

Storage calls are modelled by their control flow: each upload either
returns a URI or fails (raises); the uploaded payloads never influence
control flow and are not tracked. -/

/-- Error value standing for a raised ExternalServiceError of a service. -/
inductive AErr where
  | externalService : String → AErr
deriving DecidableEq

/-- The GCS client as the artifact code drives it: the outcome of an upload,
keyed by the destination blob path. -/
structure GCSClient where
  bucket_name : String
  upload_file : String → Except String String
  upload_json : String → Except String String

/-- The trainer capability the artifact code uses: native binary save,
which may fail. -/
structure TrainerOps (μ : Type) where
  save_model : μ → Except String Unit

/-- Embedding of `get_model_extension`: the fixed per-backend extension,
with `.pkl` as the `dict.get` fallback for every other model type. -/
def get_model_extension (model_type : String) : String :=
  if model_type = "catboost" then ".cbm"
  else if model_type = "xgboost" then ".json"
  else if model_type = "lightgbm" then ".txt"
  else ".pkl"

/-- The try-block of `save_model_artifacts`: model binary, preprocess,
postprocess, metrics and signature uploads in order, then the base URI. -/
def save_model_body {μ : Type} (model : μ) (experiment_id : String) (version : Nat)
    (trainer : TrainerOps μ) (model_type : String) (g : GCSClient) :
    Except String String := do
  let base := "models/" ++ experiment_id ++ "/v" ++ toString version
  trainer.save_model model
  let _ ← g.upload_file (base ++ "/model" ++ get_model_extension model_type)
  let _ ← g.upload_json (base ++ "/preprocess.json")
  let _ ← g.upload_json (base ++ "/postprocess.json")
  let _ ← g.upload_json (base ++ "/metrics.json")
  let _ ← g.upload_json (base ++ "/signature.json")
  return "gs://" ++ g.bucket_name ++ "/" ++ base

/-- Embedding of `save_model_artifacts`: any failure in the body is
re-raised as an ExternalServiceError for GCS. -/
def save_model_artifacts {μ : Type} (model : μ) (experiment_id : String) (version : Nat)
    (trainer : TrainerOps μ) (model_type : String) (g : GCSClient) : Except AErr String :=
  match save_model_body model experiment_id version trainer model_type g with
  | .ok u => .ok u
  | .error _ => .error (AErr.externalService "GCS")

/-- The try-block of `save_trial_artifacts`: model binary then trial
metadata upload, then the base URI. -/
def save_trial_body {μ : Type} (model : μ) (experiment_id : String) (trial_number : Nat)
    (trainer : TrainerOps μ) (model_type : String) (g : GCSClient) :
    Except String String := do
  let base := "experiments/" ++ experiment_id ++ "/trials/" ++ toString trial_number
  trainer.save_model model
  let _ ← g.upload_file (base ++ "/model" ++ get_model_extension model_type)
  let _ ← g.upload_json (base ++ "/metadata.json")
  return "gs://" ++ g.bucket_name ++ "/" ++ base

/-- Embedding of `save_trial_artifacts`: a failure in the body is swallowed
(trials may fail to save without breaking the study) and an empty URI is
returned; no exception propagates. -/
def save_trial_artifacts {μ : Type} (model : μ) (experiment_id : String)
    (trial_number : Nat) (trainer : TrainerOps μ) (model_type : String) (g : GCSClient) :
    Except AErr String :=
  match save_trial_body model experiment_id trial_number trainer model_type g with
  | .ok u => .ok u
  | .error _ => .ok ""

/-- C9: saving trial artifacts never propagates a storage failure - the call
always returns (an empty URI when the body failed) - while a failure during
a full model-artifact save raises an external-service error for GCS. -/
theorem c9_trial_save_swallows_model_save_raises {μ : Type} (model : μ)
    (experiment_id : String) (trial_number version : Nat) (trainer : TrainerOps μ)
    (model_type : String) (g : GCSClient) :
    ((save_trial_artifacts model experiment_id trial_number trainer model_type g).isOk
      = true) ∧
    (∀ e, save_trial_body model experiment_id trial_number trainer model_type g =
        .error e →
      save_trial_artifacts model experiment_id trial_number trainer model_type g =
        .ok "") ∧
    (∀ e, save_model_body model experiment_id version trainer model_type g = .error e →
      save_model_artifacts model experiment_id version trainer model_type g =
        .error (AErr.externalService "GCS")) := by
  refine ⟨?_, ?_, ?_⟩
  · unfold save_trial_artifacts
    rcases save_trial_body model experiment_id trial_number trainer model_type g <;> rfl
  · intro e he
    unfold save_trial_artifacts
    rw [he]
  · intro e he
    unfold save_model_artifacts
    rw [he]

/-- Witness for C9: with a client whose uploads fail, the trial save still
returns (with an empty URI) and the model save raises. -/
theorem c9_trial_save_swallows_model_save_raises_witness :
    save_trial_artifacts () "exp1" 3 ⟨fun _ => Except.ok ()⟩ "xgboost"
      ⟨"bkt", fun _ => Except.error "boom", fun _ => Except.error "boom"⟩ =
      Except.ok "" ∧
    save_model_artifacts () "exp1" 1 ⟨fun _ => Except.ok ()⟩ "xgboost"
      ⟨"bkt", fun _ => Except.error "boom", fun _ => Except.error "boom"⟩ =
      Except.error (AErr.externalService "GCS") := by
  obtain ⟨-, htrial, hmodel⟩ := c9_trial_save_swallows_model_save_raises
    () "exp1" 3 1 ⟨fun _ => Except.ok ()⟩ "xgboost"
    ⟨"bkt", fun _ => Except.error "boom", fun _ => Except.error "boom"⟩
  exact ⟨htrial "boom" rfl, hmodel "boom" rfl⟩

/-- C10: the model-file extension map is total: the three supported backends
get their fixed, pairwise distinct extensions and every other model type
falls back to `.pkl` (so saves and loads proceed rather than fail). -/
theorem c10_get_model_extension_total :
    get_model_extension "catboost" = ".cbm" ∧
    get_model_extension "xgboost" = ".json" ∧
    get_model_extension "lightgbm" = ".txt" ∧
    (get_model_extension "catboost" ≠ get_model_extension "xgboost" ∧
     get_model_extension "catboost" ≠ get_model_extension "lightgbm" ∧
     get_model_extension "xgboost" ≠ get_model_extension "lightgbm") ∧
    (∀ s : String, s ≠ "catboost" → s ≠ "xgboost" → s ≠ "lightgbm" →
      get_model_extension s = ".pkl") := by
  refine ⟨rfl, rfl, rfl, ⟨by decide, by decide, by decide⟩, ?_⟩
  intro s h1 h2 h3
  unfold get_model_extension
  rw [if_neg h1, if_neg h2, if_neg h3]

/-- Witness for C10: an unrecognized backend name falls back to `.pkl`. -/
theorem c10_get_model_extension_total_witness :
    get_model_extension "randomforest" = ".pkl" :=
  c10_get_model_extension_total.2.2.2.2 "randomforest" (by decide) (by decide) (by decide)

end MLApi
